import Mathlib

/-!
Verification development for the twonottouch Star Battle deductive solver
(src/lib.rs). The Rust code is shallowly embedded: cell mutation goes through
the two primitives Cell.shade / Cell.star; every routine that can panic in
Rust (index out of bounds, usize subtraction underflow in debug profile, the
unreachable!() in blackout_star_adjacencies) is embedded as an Option-valued
function where none models the panic. The two fixpoint loops are embedded
with explicit fuel; the fuel bounds are justified by the termination theorem
for the outer loop (a productive pass strictly decreases the Blank count).
-/

set_option maxRecDepth 4000

/-- State of a cell: Blank (undecided), Star (placed mark), Filled (proved empty). -/
inductive CellState where
  | Blank
  | Star
  | Filled
deriving DecidableEq

/-- A cell: region tag (immutable after construction) plus a state. -/
structure Cell where
  region : Nat
  state : CellState
deriving DecidableEq

/-- Rust Cell::shade — promote Blank to Filled, no-op on any other state. -/
def Cell.shade (c : Cell) : Cell :=
  if c.state = CellState.Blank then { c with state := CellState.Filled } else c

/-- Rust Cell::star — promote Blank to Star, no-op on any other state. -/
def Cell.star (c : Cell) : Cell :=
  if c.state = CellState.Blank then { c with state := CellState.Star } else c

/-- The board: width/height fields, matrix of cells, region coordinate lists
(indexable by region tag). The test-only solution field is omitted. -/
structure Board where
  width : Nat
  height : Nat
  cells : List (List Cell)
  regions : List (List (Nat × Nat))
deriving DecidableEq

/-- Rust free function adjacencies(width, height, row, col): king-move
neighbours clipped to the grid, in the push order of the source. -/
def adjacencies (width height row col : Nat) : List (Nat × Nat) :=
  if row ≥ height ∨ col ≥ width then []
  else
    (if 0 < row then
      [(row - 1, col)] ++ (if 0 < col then [(row - 1, col - 1)] else []) ++
        (if col < width - 1 then [(row - 1, col + 1)] else [])
    else []) ++
    (if row < height - 1 then
      [(row + 1, col)] ++ (if 0 < col then [(row + 1, col - 1)] else []) ++
        (if col < width - 1 then [(row + 1, col + 1)] else [])
    else []) ++
    (if 0 < col then [(row, col - 1)] else []) ++
    (if col < width - 1 then [(row, col + 1)] else [])

/-- Read self.cells[row][col]; none models the Rust index-out-of-bounds panic. -/
def Board.getCell? (b : Board) (row col : Nat) : Option Cell :=
  (b.cells.get? row).bind fun r => r.get? col

/-- In-place update cells[row][col] := f (cells[row][col]); none models the
index panic. -/
def modifyCell (cells : List (List Cell)) (row col : Nat) (f : Cell → Cell) :
    Option (List (List Cell)) :=
  (cells.get? row).bind fun r =>
    (r.get? col).map fun cell => cells.set row (r.set col (f cell))

/-- Rust Board::shade_coords (and every direct self.cells[r][c].shade() call). -/
def Board.shade_coords (b : Board) (row col : Nat) : Option Board :=
  (modifyCell b.cells row col Cell.shade).map fun cs => { b with cells := cs }

/-- A direct self.cells[r][c].star() call (the body of add_star_coords before
it re-enforces the rules). -/
def Board.starCell (b : Board) (row col : Nat) : Option Board :=
  (modifyCell b.cells row col Cell.star).map fun cs => { b with cells := cs }

/-- Number of Star cells in a slice (row / column / region cell list). -/
def starCount (cs : List Cell) : Nat :=
  cs.countP fun c => decide (c.state = CellState.Star)

/-- Indices of the Blank cells of a slice, in order (Rust
iter().enumerate().filter(Blank)). -/
def blanksIdx (cs : List Cell) : List Nat :=
  (cs.enum.filter fun p => decide (p.2.state = CellState.Blank)).map Prod.fst

/-- Number of Blank cells in one row. -/
def countBlanksRow (cs : List Cell) : Nat :=
  cs.countP fun c => decide (c.state = CellState.Blank)

/-- Total number of Blank cells on the board. -/
def Board.countBlanks (b : Board) : Nat := (b.cells.map countBlanksRow).sum

/-- Collect column col of the matrix (Rust cells.iter().map(|row| row[col]));
none models the panic when some row is shorter than col+1. -/
def colCells? : List (List Cell) → Nat → Option (List Cell)
  | [], _ => some []
  | r :: rs, col =>
    (r.get? col).bind fun c => (colCells? rs col).map fun cs => c :: cs

/-- Checked usize subtraction: none models the debug-profile underflow panic
(in the two places the solver can underflow, the release profile panics one
step later on the wrapped index). -/
def usizeSub (a b : Nat) : Option Nat := if b ≤ a then some (a - b) else none

/-- Panic-aware left fold of a board-mutating step over a list. -/
def optFoldl (f : Board → α → Option Board) : Board → List α → Option Board
  | b, [] => some b
  | b, a :: l =>
    match f b a with
    | none => none
    | some b2 => optFoldl f b2 l

/-- Read the cells at a list of coordinates; none models an index panic. -/
def readCells? (b : Board) : List (Nat × Nat) → Option (List Cell)
  | [] => some []
  | p :: ps =>
    (b.getCell? p.1 p.2).bind fun c => (readCells? b ps).map fun cs => c :: cs

/-- Shade a list of coordinates in order. -/
def shadeList (b : Board) (ps : List (Nat × Nat)) : Option Board :=
  optFoldl (fun bb p => bb.shade_coords p.1 p.2) b ps

/-- Inclusive range [a, b] as a list (Rust a..=b). -/
def rangeIncl (a b : Nat) : List Nat := (List.range (b + 1 - a)).map fun i => a + i

/-- Rust Board::regional_stars: count the Stars at a region's coordinates. -/
def regional_stars? (b : Board) (region : List (Nat × Nat)) : Option Nat :=
  (readCells? b region).map starCount

/-- Rust Board::blackout_rows (rule R1 on rows): shade every cell of any row
holding exactly two Stars.  Pure: it cannot panic. -/
def Board.blackout_rows (b : Board) : Board :=
  { b with cells := b.cells.map fun r => if starCount r = 2 then r.map Cell.shade else r }

/-- Rust Board::blackout_cols (rule R1 on columns). -/
def Board.blackout_cols (b : Board) : Option Board :=
  optFoldl (fun bb col =>
    match colCells? bb.cells col with
    | none => none
    | some cellsCol =>
      if starCount cellsCol = 2 then
        optFoldl (fun bbb row => bbb.shade_coords row col) bb (List.range bb.height)
      else some bb)
    b (List.range b.width)

/-- Rust Board::blackout_regions (rule R1 on regions). -/
def Board.blackout_regions (b : Board) : Option Board :=
  optFoldl (fun bb region =>
    match regional_stars? bb region with
    | none => none
    | some n =>
      if n = 2 then shadeList bb region else some bb)
    b b.regions

/-- Rust Board::blackout_star_adjacencies (rule R2): shade every king
neighbour of every Star; hitting a Star neighbour is the unreachable!()
panic, modelled as none. -/
def Board.blackout_star_adjacencies (b : Board) : Option Board :=
  optFoldl (fun bb row =>
    optFoldl (fun bbb col =>
      match bbb.getCell? row col with
      | none => none
      | some cell =>
        if cell.state = CellState.Star then
          optFoldl (fun b4 p =>
            match b4.getCell? p.1 p.2 with
            | none => none
            | some ncell =>
              if ncell.state = CellState.Star then none
              else b4.shade_coords p.1 p.2)
            bbb (adjacencies bbb.width bbb.height row col)
        else some bbb)
      bb (List.range bb.width))
    b (List.range b.height)

/-- Cells shaded around one adjacent pair of Blanks at indices i, j of a row
(the row above when it exists, then the row below when it exists). -/
def pairBand (height row i j : Nat) : List (Nat × Nat) :=
  (if row ≠ 0 then [(row - 1, i), (row - 1, j)] else []) ++
    (if row < height - 1 then [(row + 1, i), (row + 1, j)] else [])

/-- One row of Rust Board::blackout_next_to_contiguity (rule R4).  The two
independent pair checks of the 4-Blank branch are one shadeList over the
concatenation: the same shades in the same order (self.height is never
written, so reading it before or between the two groups is equivalent). -/
def contiguityRowStep (bb : Board) (row : Nat) : Option Board :=
  match bb.cells.get? row with
  | none => none
  | some r =>
    match blanksIdx r with
    | [b0, b1] =>
      if starCount r = 1 ∧ b1 - b0 = 1 then
        shadeList bb (pairBand bb.height row b0 b1)
      else some bb
    | [b0, b1, b2] =>
      if starCount r = 1 ∧ b2 - b0 = 2 then
        shadeList bb ((if row ≠ 0 then [(row - 1, b1)] else []) ++
          (if row < bb.height - 1 then [(row + 1, b1)] else []))
      else some bb
    | [b0, b1, b2, b3] =>
      if starCount r = 0 then
        shadeList bb ((if b1 - b0 = 1 then pairBand bb.height row b0 b1 else []) ++
          (if b3 - b2 = 1 then pairBand bb.height row b2 b3 else []))
      else some bb
    | _ => some bb

/-- Transposed pairBand (cells left and right of an adjacent vertical pair). -/
def pairBandCol (width col i j : Nat) : List (Nat × Nat) :=
  (if col ≠ 0 then [(i, col - 1), (j, col - 1)] else []) ++
    (if col < width - 1 then [(i, col + 1), (j, col + 1)] else [])

/-- One column of Rust Board::blackout_next_to_contiguity (rule R4). -/
def contiguityColStep (bb : Board) (col : Nat) : Option Board :=
  match colCells? bb.cells col with
  | none => none
  | some cellsCol =>
    match blanksIdx cellsCol with
    | [b0, b1] =>
      if starCount cellsCol = 1 ∧ b1 - b0 = 1 then
        shadeList bb (pairBandCol bb.width col b0 b1)
      else some bb
    | [b0, b1, b2] =>
      if starCount cellsCol = 1 ∧ b2 - b0 = 2 then
        shadeList bb ((if col ≠ 0 then [(b1, col - 1)] else []) ++
          (if col < bb.width - 1 then [(b1, col + 1)] else []))
      else some bb
    | [b0, b1, b2, b3] =>
      if starCount cellsCol = 0 then
        shadeList bb ((if b1 - b0 = 1 then pairBandCol bb.width col b0 b1 else []) ++
          (if b3 - b2 = 1 then pairBandCol bb.width col b2 b3 else []))
      else some bb
    | _ => some bb

/-- Rust Board::blackout_next_to_contiguity (rule R4): rows then columns. -/
def Board.blackout_next_to_contiguity (b : Board) : Option Board :=
  match optFoldl contiguityRowStep b (List.range b.height) with
  | none => none
  | some b1 => optFoldl contiguityColStep b1 (List.range b1.width)

/-- Minimum of a list of naturals; the Rust fold starts at usize::MAX, so for
the nonempty lists it is applied to this fold from the head is equivalent. -/
def listMin : List Nat → Nat
  | [] => 0
  | x :: xs => List.foldl min x xs

/-- Maximum of a list of naturals (Rust fold starting at usize::MIN). -/
def listMax : List Nat → Nat
  | [] => 0
  | x :: xs => List.foldl max x xs

/-- One region of Rust Board::eliminate_middle_of_small_empty_regions (rule
R3).  Note the source has no lower bound on the region size: the rule fires
for every non-empty star-free region whose bounding box satisfies
area ≤ 6 ∧ width ≤ 3 ∧ height ≤ 3, and mid_row = max_row - 1 (resp.
mid_col = max_col - 1) underflows (panics) when max_row (max_col) is 0.
The three shade groups of the source are one shadeList over their
concatenation, which performs the same shades in the same order;
self.height (self.width) is never written, so the bounds test the source
evaluates after the first two groups is read up front here (when height - 1
underflows both orderings produce a panic, i.e. none). -/
def elim_region_step (bb : Board) (region : List (Nat × Nat)) : Option Board :=
  match regional_stars? bb region with
  | none => none
  | some sc =>
    if region.isEmpty ∨ sc ≠ 0 then some bb
    else
      let min_row := listMin (region.map Prod.fst)
      let max_row := listMax (region.map Prod.fst)
      let min_col := listMin (region.map Prod.snd)
      let max_col := listMax (region.map Prod.snd)
      let width := max_col - min_col + 1
      let height := max_row - min_row + 1
      let area := width * height
      if area ≤ 6 ∧ width ≤ 3 ∧ height ≤ 3 then
        if width ≤ height then
          match usizeSub max_row 1 with
          | none => none
          | some mid_row =>
            match usizeSub bb.height 1 with
            | none => none
            | some hm1 =>
              shadeList bb
                (((rangeIncl min_col max_col).map fun col => (mid_row, col)) ++
                  (if min_row ≠ 0 then
                    (rangeIncl min_col max_col).map fun col => (min_row - 1, col)
                  else []) ++
                  (if max_row < hm1 then
                    (rangeIncl min_col max_col).map fun col => (max_row + 1, col)
                  else []))
        else
          match usizeSub max_col 1 with
          | none => none
          | some mid_col =>
            match usizeSub bb.width 1 with
            | none => none
            | some wm1 =>
              shadeList bb
                (((rangeIncl min_row max_row).map fun row => (row, mid_col)) ++
                  (if min_col ≠ 0 then
                    (rangeIncl min_row max_row).map fun row => (row, min_col - 1)
                  else []) ++
                  (if max_col < wm1 then
                    (rangeIncl min_row max_row).map fun row => (row, max_col + 1)
                  else []))
      else some bb

/-- Rust Board::eliminate_middle_of_small_empty_regions (rule R3): the Rust
loop iterates over self.regions.clone(), a snapshot of the region lists. -/
def Board.eliminate_middle_of_small_empty_regions (b : Board) : Option Board :=
  optFoldl elim_region_step b b.regions

/-- Drop the coordinates of Filled cells from one region list, preserving
order (the body of Rust Board::regenerate_regions). -/
def filterNotFilled (b : Board) : List (Nat × Nat) → Option (List (Nat × Nat))
  | [] => some []
  | p :: ps =>
    (b.getCell? p.1 p.2).bind fun cell =>
      (filterNotFilled b ps).map fun rest =>
        if cell.state ≠ CellState.Filled then p :: rest else rest

/-- Monadic map of filterNotFilled over all region lists. -/
def filterRegions (b : Board) : List (List (Nat × Nat)) → Option (List (List (Nat × Nat)))
  | [] => some []
  | reg :: regs =>
    (filterNotFilled b reg).bind fun reg2 =>
      (filterRegions b regs).map fun rest => reg2 :: rest

/-- Rust Board::regenerate_regions (rule R5). -/
def Board.regenerate_regions (b : Board) : Option Board :=
  (filterRegions b b.regions).map fun rs => { b with regions := rs }

/-- Star the cell at index i of a slice (Rust row[blanks[i].0].star()). -/
def starAt (cs : List Cell) (i : Nat) : List Cell :=
  match cs.get? i with
  | none => cs
  | some c => cs.set i c.star

/-- Rust Board::add_required_stars_slice (rule R6 on one line). -/
def add_required_stars_slice (row : List Cell) : List Cell :=
  let blanks := blanksIdx row
  let sc := starCount row
  let count := blanks.length
  if sc = 0 then
    if count ≤ 2 then row.map Cell.star
    else if count = 3 then
      match blanks with
      | b0 :: b1 :: b2 :: _ =>
        if b1 - b0 = 1 then starAt row b2
        else if b2 - b1 = 1 then starAt row b0
        else row
      | _ => row
    else row
  else if sc = 1 ∧ count = 1 then row.map Cell.star
  else row

/-- Rust Board::add_required_stars_rows: R6 over every row.  Pure. -/
def Board.add_required_stars_rows (b : Board) : Board :=
  { b with cells := b.cells.map add_required_stars_slice }

/-- Write a new column back through the mutable references Rust collected. -/
def setColumn (cells : List (List Cell)) (col : Nat) (newCol : List Cell) :
    List (List Cell) :=
  List.zipWith (fun r v => r.set col v) cells newCol

/-- Rust Board::add_required_stars_cols: R6 over every column. -/
def Board.add_required_stars_cols (b : Board) : Option Board :=
  optFoldl (fun bb col =>
    match colCells? bb.cells col with
    | none => none
    | some cellsCol =>
      some { bb with cells := setColumn bb.cells col (add_required_stars_slice cellsCol) })
    b (List.range b.width)

/-- One pass of the body of Rust Board::enforce_rules, in the order of the
source: blackout_cols, blackout_rows, blackout_regions,
blackout_star_adjacencies, blackout_next_to_contiguity,
eliminate_middle_of_small_empty_regions, regenerate_regions. -/
def Board.enforcePass (b : Board) : Option Board :=
  (b.blackout_cols).bind fun b1 =>
  (b1.blackout_rows.blackout_regions).bind fun b3 =>
  (b3.blackout_star_adjacencies).bind fun b4 =>
  (b4.blackout_next_to_contiguity).bind fun b5 =>
  (b5.eliminate_middle_of_small_empty_regions).bind fun b6 =>
  b6.regenerate_regions

/-- The inner fixpoint loop of Rust Board::enforce_rules, with fuel; none on
fuel exhaustion (unreachable at the fuel used by Board.enforce_rules, since a
productive pass strictly shrinks countBlanks + total region length). -/
def enforceAux : Nat → Board → Option Board
  | 0, _ => none
  | fuel + 1, b =>
    match b.enforcePass with
    | none => none
    | some b2 => if b2 = b then some b2 else enforceAux fuel b2

/-- Decreasing measure of the inner loop: Blank cells plus total region list
length. -/
def Board.measureB (b : Board) : Nat :=
  b.countBlanks + (b.regions.map List.length).sum

/-- Rust Board::enforce_rules. -/
def Board.enforce_rules (b : Board) : Option Board := enforceAux (b.measureB + 1) b

/-- Rust Board::add_star_coords: star the cell, then run the whole inner
fixpoint loop. -/
def Board.add_star_coords (b : Board) (row col : Nat) : Option Board :=
  match b.starCell row col with
  | none => none
  | some b1 => b1.enforce_rules

/-- The three king-adjacency tests of the count == 3 branch of Rust
Board::add_required_stars_region (rule R7), returning the coordinate that is
starred, if any. -/
def pick_region_star (width height : Nat) (b0 b1 b2 : Nat × Nat) : Option (Nat × Nat) :=
  if b1 ∈ adjacencies width height b0.1 b0.2 then some b2
  else if b2 ∈ adjacencies width height b1.1 b1.2 then some b0
  else if b2 ∈ adjacencies width height b0.1 b0.2 then some b1
  else none

/-- One region of Rust Board::add_required_stars_region (rule R7). -/
def regionStarsStep (bb : Board) (region : List (Nat × Nat)) : Option Board :=
  match readCells? bb region with
  | none => none
  | some cs =>
    let blanks := ((region.zip cs).filter fun pc =>
      decide (pc.2.state = CellState.Blank)).map Prod.fst
    let sc := starCount cs
    let count := blanks.length
    if sc = 0 then
      if count ≤ 2 then
        optFoldl (fun b3 p => b3.add_star_coords p.1 p.2) bb region
      else if count = 3 then
        match blanks with
        | p0 :: p1 :: p2 :: _ =>
          match pick_region_star bb.width bb.height p0 p1 p2 with
          | some p => bb.add_star_coords p.1 p.2
          | none => some bb
        | _ => some bb
      else some bb
    else if sc = 1 ∧ count = 1 then
      optFoldl (fun b3 p => b3.add_star_coords p.1 p.2) bb region
    else some bb

/-- Rust Board::add_required_stars_region (rule R7): iterates over
self.regions.clone(), a snapshot taken before any mutation. -/
def Board.add_required_stars_region (b : Board) : Option Board :=
  optFoldl regionStarsStep b b.regions

/-- One pass of the body of the Rust Board::solve loop. -/
def Board.solvePass (b : Board) : Option Board :=
  (b.enforce_rules).bind fun b1 =>
  (b1.add_required_stars_cols).bind fun b2 =>
  (b2.enforce_rules).bind fun b3 =>
  (b3.add_required_stars_rows.enforce_rules).bind fun b5 =>
  b5.add_required_stars_region

/-- The outer fixpoint loop of Rust Board::solve, with fuel. -/
def solveAux : Nat → Board → Option Board
  | 0, _ => none
  | fuel + 1, b =>
    match b.solvePass with
    | none => none
    | some b2 => if b2 = b then some b2 else solveAux fuel b2

/-- Rust Board::solve.  The fuel countBlanks + 1 is sufficient: a productive
outer pass strictly decreases the number of Blank cells (proved below). -/
def Board.solve (b : Board) : Option Board := solveAux (b.countBlanks + 1) b

/-- Insertion into a sorted list of naturals. -/
def insertSorted (x : Nat) : List Nat → List Nat
  | [] => [x]
  | y :: ys => if x ≤ y then x :: y :: ys else y :: insertSorted x ys

/-- Insertion sort (used to model the tag sort of Board::new, whose HashMap
keys are unique, so sorting the (tag, list) pairs sorts by tag). -/
def sortNats (l : List Nat) : List Nat := l.foldr insertSorted []

/-- Remove adjacent duplicates of a sorted list (the HashMap has one entry
per distinct tag). -/
def dedupSorted : List Nat → List Nat
  | [] => []
  | [x] => [x]
  | x :: y :: rest =>
    if x = y then dedupSorted (y :: rest) else x :: dedupSorted (y :: rest)

/-- Rust Board::blank_from_regions: all-Blank cells carrying the given tags. -/
def Board.blank_from_regions (tags : List (List Nat)) : List (List Cell) :=
  tags.map fun row => row.map fun t => { region := t, state := CellState.Blank }

/-- Rust Board::new(width, height, regions): groups coordinates by tag in
row-major order and sorts the groups by tag; it performs no validation of the
dimensions and cannot fail. -/
def Board.new (width height : Nat) (tags : List (List Nat)) : Board :=
  let cells := Board.blank_from_regions tags
  let pairs := (cells.enum.map fun rp =>
    rp.2.enum.map fun cp => (cp.2.region, (rp.1, cp.1))).flatten
  let tagList := dedupSorted (sortNats (pairs.map Prod.fst))
  { width := width, height := height, cells := cells,
    regions := tagList.map fun t => (pairs.filter fun pr => decide (pr.1 = t)).map Prod.snd }

/-- Assignment cells[row][col] = v (not a shade/star primitive: Board::solved
overwrites cells directly); none models the index panic. -/
def assignCell (cells : List (List Cell)) (row col : Nat) (v : Cell) :
    Option (List (List Cell)) :=
  (cells.get? row).bind fun r =>
    (r.get? col).map fun _ => cells.set row (r.set col v)

/-- Rust Board::solved(width, height, stars) (test-only constructor).  The
source allocates a hardcoded 10 × 10 all-Filled matrix (vec![vec![..; 10]; 10])
and then stars the two listed columns of each of the first height rows. -/
def Board.solved (width height : Nat) (stars : List (Nat × Nat)) : Option Board :=
  let base := List.replicate 10 (List.replicate 10
    ({ region := 0, state := CellState.Filled } : Cell))
  (optFoldlCells (fun cs row =>
    match stars.get? row with
    | none => none
    | some st =>
      match assignCell cs row st.1 { region := 0, state := CellState.Star } with
      | none => none
      | some cs1 => assignCell cs1 row st.2 { region := 0, state := CellState.Star })
    base (List.range height)).map fun cells =>
  { width := width, height := height, cells := cells, regions := [] }
where
  optFoldlCells (f : List (List Cell) → Nat → Option (List (List Cell))) :
      List (List Cell) → List Nat → Option (List (List Cell))
    | cs, [] => some cs
    | cs, a :: l =>
      match f cs a with
      | none => none
      | some cs2 => optFoldlCells f cs2 l

/-- Modelled from the spec: the inner pass applying R1 (cols, rows, regions),
R2 (star adjacencies), R3 (small-region middle elimination), R4 (edge
contiguity), then R5 (regenerate), in the order the specification claims.
Used only to compare against the order of the source, which runs R4 before
R3. -/
def Board.enforcePassSpecOrder (b : Board) : Option Board :=
  (b.blackout_cols).bind fun b1 =>
  (b1.blackout_rows.blackout_regions).bind fun b3 =>
  (b3.blackout_star_adjacencies).bind fun b4 =>
  (b4.eliminate_middle_of_small_empty_regions).bind fun b5 =>
  (b5.blackout_next_to_contiguity).bind fun b6 =>
  b6.regenerate_regions

/-! Generic machinery: per-cell evolution relations lifted to matrices. -/

/-- One observable cell transition of the solver: the cell is unchanged, or
it was Blank (and its region tag is preserved).  Together with the Cell
structure this says the only state transitions are Blank to Blank, Blank to
Star, Blank to Filled. -/
def CellEvolves (old new : Cell) : Prop :=
  new = old ∨ (old.state = CellState.Blank ∧ new.region = old.region)

/-- Cell transition of the star-only routines: unchanged or starred. -/
def StarEvolves (old new : Cell) : Prop := new = old ∨ new = old.star

/-- Matrix-level lift of a per-cell relation. -/
def MatRel (R : Cell → Cell → Prop) (xs ys : List (List Cell)) : Prop :=
  List.Forall₂ (List.Forall₂ R) xs ys

/-- Board-level monotonicity: every cell either is unchanged or was Blank. -/
def BoardMono (b b2 : Board) : Prop := MatRel CellEvolves b.cells b2.cells

/-- Relation established by every cell-only routine: monotone cells, all
other fields untouched. -/
def StepOK (b b2 : Board) : Prop :=
  BoardMono b b2 ∧ b2.width = b.width ∧ b2.height = b.height ∧ b2.regions = b.regions

/-- Relation established by every solver routine: monotone cells, dimensions
untouched (the region lists may be rebuilt). -/
def Evolves (b b2 : Board) : Prop :=
  BoardMono b b2 ∧ b2.width = b.width ∧ b2.height = b.height

/-- No region list mentions a Filled cell (what regenerate_regions establishes
and Board::new provides: all cells Blank). -/
def Consistent (b : Board) : Prop :=
  ∀ reg ∈ b.regions, ∀ p ∈ reg, ∀ cell, b.getCell? p.1 p.2 = some cell →
    cell.state ≠ CellState.Filled

/-- A routine that only stars cells never creates a Filled cell. -/
def NoNewFilled (x y : Board) : Prop :=
  ∀ r c cell2, y.getCell? r c = some cell2 → cell2.state = CellState.Filled →
    ∃ cell1, x.getCell? r c = some cell1 ∧ cell1.state = CellState.Filled

/-- A Filled cell with region tag 1. -/
def fcell : Cell := { region := 1, state := CellState.Filled }

/-- A Blank cell with region tag 0. -/
def bcell0 : Cell := { region := 0, state := CellState.Blank }

/-- A Blank cell with region tag 1. -/
def bcell1 : Cell := { region := 1, state := CellState.Blank }

/-- A 3 × 3 all-Blank board whose region 0 is the single cell (1, 1): rule R3
fires on that one-cell star-free region and shades (0, 1) and (2, 1). -/
def cbTiny : Board := Board.new 3 3 [[1, 1, 1], [1, 0, 1], [1, 1, 1]]

/-- A 3-row, 5-column all-Blank board whose region 0 is the horizontal 1 × 3
strip (1, 1), (1, 2), (1, 3). -/
def cbStrip : Board := Board.new 5 3 [[1, 1, 1, 1, 1], [1, 0, 0, 0, 1], [1, 1, 1, 1, 1]]

/-- A mid-solve board state on which the order of R3 and R4 inside the pass
is observable: row 1 has four Blanks whose first pair is adjacent (an R4
configuration), and region 0 is a star-free vertical pair whose R3 middle row
shades one of those four Blanks. -/
def cbOrder : Board :=
  { width := 5, height := 3,
    cells := [[fcell, fcell, fcell, fcell, fcell],
      [bcell0, bcell1, fcell, bcell1, bcell1],
      [bcell0, fcell, fcell, fcell, fcell]],
    regions := [[(1, 0), (2, 0)], [(1, 1), (1, 3), (1, 4)]] }

/-- A 1 × 2 board with a Star at (0, 0): its inner fixpoint loop succeeds. -/
def bStar : Board :=
  { width := 2, height := 1,
    cells := [[{ region := 0, state := CellState.Star }, bcell0]],
    regions := [[(0, 0), (0, 1)]] }

/-- The fixpoint the inner loop reaches from bStar. -/
def bStarFix : Board :=
  { width := 2, height := 1,
    cells := [[{ region := 0, state := CellState.Star },
      { region := 0, state := CellState.Filled }]],
    regions := [[(0, 0)]] }

/-- A single line with Blanks at positions 0, 1, 4 and no Star (scenario S2). -/
def s2Demo : List Cell := [bcell0, bcell0, fcell, fcell, bcell0]

theorem cellEvolves_refl (c : Cell) : CellEvolves c c := Or.inl rfl

theorem cellEvolves_trans {a b c : Cell} (h1 : CellEvolves a b) (h2 : CellEvolves b c) :
    CellEvolves a c := by
  rcases h1 with h1 | ⟨ha, hr1⟩
  · subst h1; exact h2
  · rcases h2 with h2 | ⟨hb, hr2⟩
    · subst h2; exact Or.inr ⟨ha, hr1⟩
    · exact Or.inr ⟨ha, hr2.trans hr1⟩

theorem cellEvolves_shade (c : Cell) : CellEvolves c c.shade := by
  unfold Cell.shade; split
  · exact Or.inr ⟨by assumption, rfl⟩
  · exact Or.inl rfl

theorem cellEvolves_star (c : Cell) : CellEvolves c c.star := by
  unfold Cell.star; split
  · exact Or.inr ⟨by assumption, rfl⟩
  · exact Or.inl rfl

theorem starEvolves_refl (c : Cell) : StarEvolves c c := Or.inl rfl

theorem forall₂_trans {α : Type} {R : α → α → Prop}
    (ht : ∀ a b c, R a b → R b c → R a c) :
    ∀ {l1 l2 l3 : List α}, List.Forall₂ R l1 l2 → List.Forall₂ R l2 l3 →
      List.Forall₂ R l1 l3 := by
  intro l1 l2 l3 h1
  induction h1 generalizing l3 with
  | nil => intro h2; cases h2; exact List.Forall₂.nil
  | cons hab h1' ih =>
    intro h2; cases h2 with
    | cons hbc h2' => exact List.Forall₂.cons (ht _ _ _ hab hbc) (ih h2')

theorem forall₂_rfl {α : Type} {R : α → α → Prop} (hr : ∀ a, R a a) :
    ∀ l : List α, List.Forall₂ R l l := by
  intro l; induction l with
  | nil => exact List.Forall₂.nil
  | cons a l ih => exact List.Forall₂.cons (hr a) ih

theorem matRel_refl {R : Cell → Cell → Prop} (hr : ∀ a, R a a)
    (xs : List (List Cell)) : MatRel R xs xs :=
  forall₂_rfl (fun r => forall₂_rfl hr r) xs

theorem matRel_trans {R : Cell → Cell → Prop}
    (ht : ∀ a b c, R a b → R b c → R a c) {xs ys zs : List (List Cell)}
    (h1 : MatRel R xs ys) (h2 : MatRel R ys zs) : MatRel R xs zs :=
  forall₂_trans (R := List.Forall₂ R) (fun _ _ _ u v => forall₂_trans ht u v) h1 h2

theorem forall₂_get? {α β : Type} {R : α → β → Prop} :
    ∀ {l1 : List α} {l2 : List β}, List.Forall₂ R l1 l2 →
      ∀ {i : Nat} {x : α}, l1.get? i = some x → ∃ y, l2.get? i = some y ∧ R x y := by
  intro l1 l2 h
  induction h with
  | nil => intro i x hx; simp [List.get?] at hx
  | cons hab h' ih =>
    intro i x hx
    cases i with
    | zero => simp [List.get?] at hx ⊢; subst hx; exact hab
    | succ j => exact ih hx

theorem forall₂_get?_rev {α β : Type} {R : α → β → Prop} :
    ∀ {l1 : List α} {l2 : List β}, List.Forall₂ R l1 l2 →
      ∀ {i : Nat} {y : β}, l2.get? i = some y → ∃ x, l1.get? i = some x ∧ R x y := by
  intro l1 l2 h
  induction h with
  | nil => intro i y hy; simp [List.get?] at hy
  | cons hab h' ih =>
    intro i y hy
    cases i with
    | zero => simp [List.get?] at hy ⊢; subst hy; exact hab
    | succ j => exact ih hy

theorem forall₂_set_of_get {α : Type} {R : α → α → Prop} (hr : ∀ a, R a a) :
    ∀ (l : List α) (i : Nat) (x v : α), l.get? i = some x → R x v →
      List.Forall₂ R l (l.set i v) := by
  intro l
  induction l with
  | nil => intro i x v hx; exact absurd hx (by simp [List.get?])
  | cons a l ih =>
    intro i x v hx hxv
    cases i with
    | zero =>
      have hax : a = x := by
        have : some a = some x := hx
        exact Option.some.inj this
      subst hax
      exact List.Forall₂.cons hxv (forall₂_rfl hr l)
    | succ j =>
      have hx' : l.get? j = some x := hx
      exact List.Forall₂.cons (hr a) (ih j x v hx' hxv)

theorem rel_map {α : Type} {R : α → α → Prop} {f : α → α} (hf : ∀ a, R a (f a)) :
    ∀ l : List α, List.Forall₂ R l (l.map f) := by
  intro l; induction l with
  | nil => exact List.Forall₂.nil
  | cons a l ih => exact List.Forall₂.cons (hf a) ih

theorem modifyCell_rel {R : Cell → Cell → Prop} (hr : ∀ a, R a a)
    {f : Cell → Cell} (hf : ∀ c, R c (f c)) {cells cells2 : List (List Cell)}
    {row col : Nat} (h : modifyCell cells row col f = some cells2) :
    MatRel R cells cells2 := by
  unfold modifyCell at h
  rcases Option.bind_eq_some.mp h with ⟨r, hrow, h2⟩
  rcases Option.map_eq_some'.mp h2 with ⟨cell, hcol, rfl⟩
  exact forall₂_set_of_get (fun r2 => forall₂_rfl hr r2) cells row r
    (r.set col (f cell)) hrow
    (forall₂_set_of_get hr r col cell (f cell) hcol (hf cell))

theorem cellsRel_map {R : Cell → Cell → Prop} {f : List Cell → List Cell}
    (hf : ∀ r, List.Forall₂ R r (f r)) (cells : List (List Cell)) :
    MatRel R cells (cells.map f) := by
  induction cells with
  | nil => exact List.Forall₂.nil
  | cons r rs ih => exact List.Forall₂.cons (hf r) ih

theorem setColumn_rel {R : Cell → Cell → Prop} (hr : ∀ a, R a a) :
    ∀ (cells : List (List Cell)) (cc newc : List Cell) (col : Nat),
      colCells? cells col = some cc → List.Forall₂ R cc newc →
      MatRel R cells (setColumn cells col newc) := by
  intro cells
  induction cells with
  | nil =>
    intro cc newc col hcc hrel
    simp [colCells?] at hcc; subst hcc
    cases hrel; exact List.Forall₂.nil
  | cons r rs ih =>
    intro cc newc col hcc hrel
    unfold colCells? at hcc
    rcases Option.bind_eq_some.mp hcc with ⟨c, hget, h2⟩
    rcases Option.map_eq_some'.mp h2 with ⟨cs, hrest, rfl⟩
    cases hrel with
    | cons hcv hrel' =>
      exact List.Forall₂.cons
        (forall₂_set_of_get hr r col c _ hget hcv)
        (ih cs _ col hrest hrel')

/-! Board-level relations and fold lemmas. -/

theorem boardMono_refl (b : Board) : BoardMono b b :=
  matRel_refl cellEvolves_refl b.cells

theorem boardMono_trans {a b c : Board} (h1 : BoardMono a b) (h2 : BoardMono b c) :
    BoardMono a c :=
  matRel_trans (R := CellEvolves) (fun _ _ _ u v => cellEvolves_trans u v) h1 h2

theorem stepOK_refl (b : Board) : StepOK b b :=
  ⟨boardMono_refl b, rfl, rfl, rfl⟩

theorem stepOK_trans {a b c : Board} (h1 : StepOK a b) (h2 : StepOK b c) : StepOK a c :=
  ⟨boardMono_trans h1.1 h2.1, h2.2.1.trans h1.2.1, h2.2.2.1.trans h1.2.2.1,
    h2.2.2.2.trans h1.2.2.2⟩

theorem evolves_refl (b : Board) : Evolves b b := ⟨boardMono_refl b, rfl, rfl⟩

theorem evolves_trans {a b c : Board} (h1 : Evolves a b) (h2 : Evolves b c) : Evolves a c :=
  ⟨boardMono_trans h1.1 h2.1, h2.2.1.trans h1.2.1, h2.2.2.trans h1.2.2⟩

theorem stepOK_evolves {a b : Board} (h : StepOK a b) : Evolves a b :=
  ⟨h.1, h.2.1, h.2.2.1⟩

theorem shade_coords_stepOK {b b2 : Board} {row col : Nat}
    (h : b.shade_coords row col = some b2) : StepOK b b2 := by
  unfold Board.shade_coords at h
  rcases Option.map_eq_some'.mp h with ⟨cs, hcs, rfl⟩
  exact ⟨modifyCell_rel cellEvolves_refl cellEvolves_shade hcs, rfl, rfl, rfl⟩

theorem starCell_stepOK {b b2 : Board} {row col : Nat}
    (h : b.starCell row col = some b2) : StepOK b b2 := by
  unfold Board.starCell at h
  rcases Option.map_eq_some'.mp h with ⟨cs, hcs, rfl⟩
  exact ⟨modifyCell_rel cellEvolves_refl cellEvolves_star hcs, rfl, rfl, rfl⟩

/-- Generic preservation of a reflexive transitive board relation along
optFoldl. -/
theorem optFoldl_rel {R : Board → Board → Prop} (hrefl : ∀ b, R b b)
    (htrans : ∀ a b c, R a b → R b c → R a c) {α : Type}
    {f : Board → α → Option Board} (hf : ∀ x a y, f x a = some y → R x y) :
    ∀ (l : List α) (b b2 : Board), optFoldl f b l = some b2 → R b b2 := by
  intro l
  induction l with
  | nil => intro b b2 h; unfold optFoldl at h; cases h; exact hrefl b
  | cons a l ih =>
    intro b b2 h
    unfold optFoldl at h
    cases hstep : f b a with
    | none => rw [hstep] at h; exact absurd h (by simp)
    | some z => rw [hstep] at h; exact htrans _ _ _ (hf b a z hstep) (ih z b2 h)

/-- Generic preservation of a board predicate along optFoldl. -/
theorem optFoldl_preserves {P : Board → Prop} {α : Type}
    {f : Board → α → Option Board} (hf : ∀ x a y, f x a = some y → P x → P y) :
    ∀ (l : List α) (b b2 : Board), optFoldl f b l = some b2 → P b → P b2 := by
  intro l
  induction l with
  | nil => intro b b2 h hp; unfold optFoldl at h; cases h; exact hp
  | cons a l ih =>
    intro b b2 h hp
    unfold optFoldl at h
    cases hstep : f b a with
    | none => rw [hstep] at h; exact absurd h (by simp)
    | some z => rw [hstep] at h; exact ih z b2 h (hf b a z hstep hp)

theorem shadeList_stepOK {b b2 : Board} {ps : List (Nat × Nat)}
    (h : shadeList b ps = some b2) : StepOK b b2 :=
  optFoldl_rel stepOK_refl (fun _ _ _ u v => stepOK_trans u v)
    (fun _ _ _ hs => shade_coords_stepOK hs) ps b b2 h

theorem blackout_rows_stepOK (b : Board) : StepOK b b.blackout_rows := by
  refine ⟨?_, rfl, rfl, rfl⟩
  unfold Board.blackout_rows BoardMono
  exact cellsRel_map (fun r => by
    split
    · exact rel_map cellEvolves_shade r
    · exact forall₂_rfl cellEvolves_refl r) b.cells

theorem blackout_cols_stepOK {b b2 : Board} (h : b.blackout_cols = some b2) :
    StepOK b b2 := by
  unfold Board.blackout_cols at h
  refine optFoldl_rel stepOK_refl (fun _ _ _ u v => stepOK_trans u v) ?_ _ _ _ h
  intro x a y hy
  split at hy
  · exact absurd hy (by simp)
  · split at hy
    · exact optFoldl_rel stepOK_refl (fun _ _ _ u v => stepOK_trans u v)
        (fun _ _ _ hs => shade_coords_stepOK hs) _ _ _ hy
    · cases hy; exact stepOK_refl x

theorem blackout_regions_stepOK {b b2 : Board} (h : b.blackout_regions = some b2) :
    StepOK b b2 := by
  unfold Board.blackout_regions at h
  refine optFoldl_rel stepOK_refl (fun _ _ _ u v => stepOK_trans u v) ?_ _ _ _ h
  intro x a y hy
  split at hy
  · exact absurd hy (by simp)
  · split at hy
    · exact shadeList_stepOK hy
    · cases hy; exact stepOK_refl x

theorem blackout_star_adjacencies_stepOK {b b2 : Board}
    (h : b.blackout_star_adjacencies = some b2) : StepOK b b2 := by
  unfold Board.blackout_star_adjacencies at h
  refine optFoldl_rel stepOK_refl (fun _ _ _ u v => stepOK_trans u v) ?_ _ _ _ h
  intro x1 row y1 hy1
  refine optFoldl_rel stepOK_refl (fun _ _ _ u v => stepOK_trans u v) ?_ _ _ _ hy1
  intro x2 col y2 hy2
  split at hy2
  · exact absurd hy2 (by simp)
  · split at hy2
    · refine optFoldl_rel stepOK_refl (fun _ _ _ u v => stepOK_trans u v) ?_ _ _ _ hy2
      intro x3 p y3 hy3
      split at hy3
      · exact absurd hy3 (by simp)
      · split at hy3
        · exact absurd hy3 (by simp)
        · exact shade_coords_stepOK hy3
    · cases hy2; exact stepOK_refl x2

theorem contiguityRowStep_stepOK {b b2 : Board} {row : Nat}
    (h : contiguityRowStep b row = some b2) : StepOK b b2 := by
  unfold contiguityRowStep at h
  split at h
  · exact absurd h (by simp)
  · split at h
    · split at h
      · exact shadeList_stepOK h
      · cases h; exact stepOK_refl b
    · split at h
      · exact shadeList_stepOK h
      · cases h; exact stepOK_refl b
    · split at h
      · exact shadeList_stepOK h
      · cases h; exact stepOK_refl b
    · cases h; exact stepOK_refl b

theorem contiguityColStep_stepOK {b b2 : Board} {col : Nat}
    (h : contiguityColStep b col = some b2) : StepOK b b2 := by
  unfold contiguityColStep at h
  split at h
  · exact absurd h (by simp)
  · split at h
    · split at h
      · exact shadeList_stepOK h
      · cases h; exact stepOK_refl b
    · split at h
      · exact shadeList_stepOK h
      · cases h; exact stepOK_refl b
    · split at h
      · exact shadeList_stepOK h
      · cases h; exact stepOK_refl b
    · cases h; exact stepOK_refl b

theorem blackout_next_to_contiguity_stepOK {b b2 : Board}
    (h : b.blackout_next_to_contiguity = some b2) : StepOK b b2 := by
  unfold Board.blackout_next_to_contiguity at h
  cases h1 : optFoldl contiguityRowStep b (List.range b.height) with
  | none => rw [h1] at h; exact absurd h (by simp)
  | some bmid =>
    rw [h1] at h
    have hA : StepOK b bmid :=
      optFoldl_rel stepOK_refl (fun _ _ _ u v => stepOK_trans u v)
        (fun _ _ _ hs => contiguityRowStep_stepOK hs) _ _ _ h1
    have hB : StepOK bmid b2 :=
      optFoldl_rel stepOK_refl (fun _ _ _ u v => stepOK_trans u v)
        (fun _ _ _ hs => contiguityColStep_stepOK hs) _ _ _ h
    exact stepOK_trans hA hB

theorem elim_region_step_stepOK {b b2 : Board} {region : List (Nat × Nat)}
    (h : elim_region_step b region = some b2) : StepOK b b2 := by
  unfold elim_region_step at h
  simp only [] at h
  repeat' split at h
  all_goals
    first
      | exact Option.noConfusion h
      | (cases h; exact stepOK_refl b)
      | exact shadeList_stepOK h

theorem eliminate_middle_stepOK {b b2 : Board}
    (h : b.eliminate_middle_of_small_empty_regions = some b2) : StepOK b b2 :=
  optFoldl_rel stepOK_refl (fun _ _ _ u v => stepOK_trans u v)
    (fun _ _ _ hs => elim_region_step_stepOK hs) _ _ _ h

/-! Monotonicity of the star-placing routines and the composite passes. -/

theorem starAt_rel {R : Cell → Cell → Prop} (hrefl : ∀ a, R a a)
    (hstar : ∀ a, R a a.star) (r : List Cell) (i : Nat) :
    List.Forall₂ R r (starAt r i) := by
  unfold starAt
  cases hget : r.get? i with
  | none => exact forall₂_rfl hrefl r
  | some c => exact forall₂_set_of_get hrefl r i c c.star hget (hstar c)

theorem slice_rel {R : Cell → Cell → Prop} (hrefl : ∀ a, R a a)
    (hstar : ∀ a, R a a.star) (r : List Cell) :
    List.Forall₂ R r (add_required_stars_slice r) := by
  unfold add_required_stars_slice
  simp only []
  split
  · split
    · exact rel_map hstar r
    · split
      · split
        · split
          · exact starAt_rel hrefl hstar r _
          · split
            · exact starAt_rel hrefl hstar r _
            · exact forall₂_rfl hrefl r
        · exact forall₂_rfl hrefl r
      · exact forall₂_rfl hrefl r
  · split
    · exact rel_map hstar r
    · exact forall₂_rfl hrefl r

theorem add_required_stars_rows_stepOK (b : Board) :
    StepOK b b.add_required_stars_rows := by
  refine ⟨?_, rfl, rfl, rfl⟩
  exact cellsRel_map (slice_rel cellEvolves_refl cellEvolves_star) b.cells

theorem add_required_stars_cols_stepOK {b b2 : Board}
    (h : b.add_required_stars_cols = some b2) : StepOK b b2 := by
  unfold Board.add_required_stars_cols at h
  refine optFoldl_rel stepOK_refl (fun _ _ _ u v => stepOK_trans u v) ?_ _ _ _ h
  intro x a y hy
  split at hy
  · exact absurd hy (by simp)
  · rename_i cellsCol hcol
    cases hy
    refine ⟨?_, rfl, rfl, rfl⟩
    exact setColumn_rel cellEvolves_refl x.cells cellsCol _ a hcol
      (slice_rel cellEvolves_refl cellEvolves_star cellsCol)

theorem regenerate_regions_evolves {b b2 : Board}
    (h : b.regenerate_regions = some b2) : Evolves b b2 := by
  unfold Board.regenerate_regions at h
  rcases Option.map_eq_some'.mp h with ⟨rs, hrs, rfl⟩
  exact ⟨boardMono_refl b, rfl, rfl⟩

theorem regenerate_regions_cells {b b2 : Board}
    (h : b.regenerate_regions = some b2) : b2.cells = b.cells := by
  unfold Board.regenerate_regions at h
  rcases Option.map_eq_some'.mp h with ⟨rs, hrs, rfl⟩
  rfl

theorem enforcePass_evolves {b b2 : Board} (h : b.enforcePass = some b2) :
    Evolves b b2 := by
  unfold Board.enforcePass at h
  rcases Option.bind_eq_some.mp h with ⟨b1, h1, h⟩
  rcases Option.bind_eq_some.mp h with ⟨b3, h3, h⟩
  rcases Option.bind_eq_some.mp h with ⟨b4, h4, h⟩
  rcases Option.bind_eq_some.mp h with ⟨b5, h5, h⟩
  rcases Option.bind_eq_some.mp h with ⟨b6, h6, h⟩
  exact evolves_trans (stepOK_evolves (blackout_cols_stepOK h1))
    (evolves_trans (stepOK_evolves (blackout_rows_stepOK b1))
      (evolves_trans (stepOK_evolves (blackout_regions_stepOK h3))
        (evolves_trans (stepOK_evolves (blackout_star_adjacencies_stepOK h4))
          (evolves_trans (stepOK_evolves (blackout_next_to_contiguity_stepOK h5))
            (evolves_trans (stepOK_evolves (eliminate_middle_stepOK h6))
              (regenerate_regions_evolves h))))))

theorem enforceAux_evolves : ∀ (fuel : Nat) {b b2 : Board},
    enforceAux fuel b = some b2 → Evolves b b2 := by
  intro fuel
  induction fuel with
  | zero => intro b b2 h; exact absurd h (by simp [enforceAux])
  | succ n ih =>
    intro b b2 h
    unfold enforceAux at h
    split at h
    · exact Option.noConfusion h
    · rename_i c hp
      split at h
      · rename_i hc; cases h; rw [hc]; exact evolves_refl b
      · exact evolves_trans (enforcePass_evolves hp) (ih h)

theorem enforce_rules_evolves {b b2 : Board} (h : b.enforce_rules = some b2) :
    Evolves b b2 := enforceAux_evolves _ h

theorem add_star_coords_evolves {b b2 : Board} {row col : Nat}
    (h : b.add_star_coords row col = some b2) : Evolves b b2 := by
  unfold Board.add_star_coords at h
  split at h
  · exact absurd h (by simp)
  · rename_i b1 hb1
    exact evolves_trans (stepOK_evolves (starCell_stepOK hb1)) (enforce_rules_evolves h)

theorem regionStarsStep_evolves {b b2 : Board} {region : List (Nat × Nat)}
    (h : regionStarsStep b region = some b2) : Evolves b b2 := by
  unfold regionStarsStep at h
  split at h
  · exact absurd h (by simp)
  · simp only [] at h
    split at h
    · split at h
      · exact optFoldl_rel evolves_refl (fun _ _ _ u v => evolves_trans u v)
          (fun _ _ _ hs => add_star_coords_evolves hs) _ _ _ h
      · split at h
        · split at h
          · split at h
            · exact add_star_coords_evolves h
            · cases h; exact evolves_refl b
          · cases h; exact evolves_refl b
        · cases h; exact evolves_refl b
    · split at h
      · exact optFoldl_rel evolves_refl (fun _ _ _ u v => evolves_trans u v)
          (fun _ _ _ hs => add_star_coords_evolves hs) _ _ _ h
      · cases h; exact evolves_refl b

theorem add_required_stars_region_evolves {b b2 : Board}
    (h : b.add_required_stars_region = some b2) : Evolves b b2 :=
  optFoldl_rel evolves_refl (fun _ _ _ u v => evolves_trans u v)
    (fun _ _ _ hs => regionStarsStep_evolves hs) _ _ _ h

theorem solvePass_evolves {b b2 : Board} (h : b.solvePass = some b2) :
    Evolves b b2 := by
  unfold Board.solvePass at h
  rcases Option.bind_eq_some.mp h with ⟨b1, h1, h⟩
  rcases Option.bind_eq_some.mp h with ⟨bc, hc, h⟩
  rcases Option.bind_eq_some.mp h with ⟨b3, h3, h⟩
  rcases Option.bind_eq_some.mp h with ⟨b5, h5, h⟩
  exact evolves_trans (enforce_rules_evolves h1)
    (evolves_trans (stepOK_evolves (add_required_stars_cols_stepOK hc))
      (evolves_trans (enforce_rules_evolves h3)
        (evolves_trans (stepOK_evolves (add_required_stars_rows_stepOK b3))
          (evolves_trans (enforce_rules_evolves h5)
            (add_required_stars_region_evolves h)))))

theorem solveAux_evolves : ∀ (fuel : Nat) {b b2 : Board},
    solveAux fuel b = some b2 → Evolves b b2 := by
  intro fuel
  induction fuel with
  | zero => intro b b2 h; exact absurd h (by simp [solveAux])
  | succ n ih =>
    intro b b2 h
    unfold solveAux at h
    split at h
    · exact Option.noConfusion h
    · rename_i c hp
      split at h
      · rename_i hc; cases h; rw [hc]; exact evolves_refl b
      · exact evolves_trans (solvePass_evolves hp) (ih h)

theorem solve_evolves {b b2 : Board} (h : b.solve = some b2) : Evolves b b2 :=
  solveAux_evolves _ h

/-! Antisymmetry of the evolution order and Blank counting. -/

theorem cellEvolves_antisymm {a b c : Cell} (h1 : CellEvolves a b) (h2 : CellEvolves b c)
    (hac : a = c) : a = b := by
  rcases h1 with rfl | ⟨ha, hr1⟩
  · rfl
  · rcases h2 with rfl | ⟨hb, hr2⟩
    · exact hac
    · cases a; cases b; simp_all

theorem forall₂_antisymm {α : Type} {R : α → α → Prop}
    (hanti : ∀ a b c, R a b → R b c → a = c → a = b) :
    ∀ {l1 l2 l3 : List α}, List.Forall₂ R l1 l2 → List.Forall₂ R l2 l3 →
      l1 = l3 → l1 = l2 := by
  intro l1 l2 l3 h1
  induction h1 generalizing l3 with
  | nil => intro h2 he; cases h2; rfl
  | cons hab h1' ih =>
    intro h2 he
    subst he
    cases h2 with
    | cons hba h2' =>
      have hab2 := hanti _ _ _ hab hba rfl
      have htl := ih h2' rfl
      rw [← hab2, ← htl]

theorem boardMono_antisymm {x y z : Board} (h1 : BoardMono x y) (h2 : BoardMono y z)
    (he : x.cells = z.cells) : x.cells = y.cells :=
  forall₂_antisymm (R := List.Forall₂ CellEvolves)
    (fun _ _ _ u v w => forall₂_antisymm
      (fun _ _ _ u2 v2 w2 => cellEvolves_antisymm u2 v2 w2) u v w) h1 h2 he

theorem cellEvolves_count {a b : Cell} (h : CellEvolves a b) :
    (if b.state = CellState.Blank then 1 else 0) ≤
      (if a.state = CellState.Blank then 1 else 0) := by
  rcases h with rfl | ⟨ha, _⟩
  · exact le_refl _
  · rw [if_pos ha]; split <;> omega

theorem cellEvolves_count_lt {a b : Cell} (h : CellEvolves a b) (hne : a ≠ b) :
    (if b.state = CellState.Blank then 1 else 0) <
      (if a.state = CellState.Blank then 1 else 0) := by
  rcases h with rfl | ⟨ha, hr⟩
  · exact absurd rfl hne
  · rw [if_pos ha]
    have hb : ¬b.state = CellState.Blank := by
      intro hbB
      exact hne (by cases a; cases b; simp_all)
    rw [if_neg hb]; omega

theorem rowEvolves_count_le {r r2 : List Cell} (h : List.Forall₂ CellEvolves r r2) :
    countBlanksRow r2 ≤ countBlanksRow r := by
  induction h with
  | nil => exact le_refl _
  | cons hab h' ih =>
    simp only [countBlanksRow, List.countP_cons, decide_eq_true_eq] at *
    have hc := cellEvolves_count hab
    omega

theorem rowEvolves_count_lt {r r2 : List Cell} (h : List.Forall₂ CellEvolves r r2)
    (hne : r ≠ r2) : countBlanksRow r2 < countBlanksRow r := by
  induction h with
  | nil => exact absurd rfl hne
  | @cons a b l1 l2 hab h' ih =>
    by_cases habe : a = b
    · subst habe
      have hl : l1 ≠ l2 := by intro heq; exact hne (by rw [heq])
      simp only [countBlanksRow, List.countP_cons, decide_eq_true_eq] at *
      have := ih hl
      omega
    · simp only [countBlanksRow, List.countP_cons, decide_eq_true_eq] at *
      have h1 := cellEvolves_count_lt hab habe
      have h2 := rowEvolves_count_le h'
      simp only [countBlanksRow] at h2
      omega

theorem matMono_count_le {m m2 : List (List Cell)} (h : MatRel CellEvolves m m2) :
    (m2.map countBlanksRow).sum ≤ (m.map countBlanksRow).sum := by
  induction h with
  | nil => exact le_refl _
  | cons hab h' ih =>
    simp only [List.map_cons, List.sum_cons]
    have := rowEvolves_count_le hab
    omega

theorem matMono_count_lt {m m2 : List (List Cell)} (h : MatRel CellEvolves m m2)
    (hne : m ≠ m2) : (m2.map countBlanksRow).sum < (m.map countBlanksRow).sum := by
  induction h with
  | nil => exact absurd rfl hne
  | @cons a b l1 l2 hab h' ih =>
    by_cases habe : a = b
    · subst habe
      have hl : l1 ≠ l2 := by intro heq; exact hne (by rw [heq])
      simp only [List.map_cons, List.sum_cons]
      have := ih hl
      omega
    · simp only [List.map_cons, List.sum_cons]
      have h1 := rowEvolves_count_lt hab habe
      have h2 := matMono_count_le h'
      omega

theorem boardMono_count_le {x y : Board} (h : BoardMono x y) :
    y.countBlanks ≤ x.countBlanks := matMono_count_le h

theorem boardMono_count_lt {x y : Board} (h : BoardMono x y) (hne : x.cells ≠ y.cells) :
    y.countBlanks < x.countBlanks := matMono_count_lt h hne

/-! Region-list consistency, and the identity of a pass that changes no cell. -/

theorem board_ext {x y : Board} (hw : y.width = x.width) (hh : y.height = x.height)
    (hc : y.cells = x.cells) (hr : y.regions = x.regions) : y = x := by
  cases x; cases y; simp_all

theorem stepOK_eq {x y : Board} (h : StepOK x y) (hc : y.cells = x.cells) : y = x :=
  board_ext h.2.1 h.2.2.1 hc h.2.2.2

theorem filterNotFilled_id {b : Board} : ∀ {reg out : List (Nat × Nat)},
    filterNotFilled b reg = some out →
    (∀ p ∈ reg, ∀ cell, b.getCell? p.1 p.2 = some cell → cell.state ≠ CellState.Filled) →
    out = reg := by
  intro reg
  induction reg with
  | nil =>
    intro out h hp
    unfold filterNotFilled at h
    exact (Option.some.inj h).symm
  | cons p ps ih =>
    intro out h hp
    unfold filterNotFilled at h
    rcases Option.bind_eq_some.mp h with ⟨cell, hcell, h2⟩
    rcases Option.map_eq_some'.mp h2 with ⟨rest, hrest, rfl⟩
    have hne := hp p (by simp) cell hcell
    rw [if_pos hne, ih hrest (fun q hq => hp q (by simp [hq]))]

theorem filterRegions_id {b : Board} : ∀ {regs rs : List (List (Nat × Nat))},
    filterRegions b regs = some rs →
    (∀ reg ∈ regs, ∀ p ∈ reg, ∀ cell, b.getCell? p.1 p.2 = some cell →
      cell.state ≠ CellState.Filled) →
    rs = regs := by
  intro regs
  induction regs with
  | nil =>
    intro rs h hp
    unfold filterRegions at h
    exact (Option.some.inj h).symm
  | cons reg regs ih =>
    intro rs h hp
    unfold filterRegions at h
    rcases Option.bind_eq_some.mp h with ⟨reg2, hreg2, h2⟩
    rcases Option.map_eq_some'.mp h2 with ⟨rest, hrest, rfl⟩
    rw [filterNotFilled_id hreg2 (hp reg (by simp)),
      ih hrest (fun q hq => hp q (by simp [hq]))]

theorem regenerate_regions_id {b b2 : Board} (hcons : Consistent b)
    (h : b.regenerate_regions = some b2) : b2 = b := by
  unfold Board.regenerate_regions at h
  rcases Option.map_eq_some'.mp h with ⟨rs, hrs, rfl⟩
  exact board_ext rfl rfl rfl (filterRegions_id hrs hcons)

theorem filterNotFilled_mem {b : Board} : ∀ {reg out : List (Nat × Nat)},
    filterNotFilled b reg = some out → ∀ p ∈ out,
    ∃ cell, b.getCell? p.1 p.2 = some cell ∧ cell.state ≠ CellState.Filled := by
  intro reg
  induction reg with
  | nil =>
    intro out h p hp
    unfold filterNotFilled at h
    cases h
    exact absurd hp (by simp)
  | cons q ps ih =>
    intro out h p hp
    unfold filterNotFilled at h
    rcases Option.bind_eq_some.mp h with ⟨cell, hcell, h2⟩
    rcases Option.map_eq_some'.mp h2 with ⟨rest, hrest, rfl⟩
    by_cases hf : cell.state ≠ CellState.Filled
    · rw [if_pos hf] at hp
      rcases List.mem_cons.mp hp with rfl | hp2
      · exact ⟨cell, hcell, hf⟩
      · exact ih hrest p hp2
    · rw [if_neg hf] at hp
      exact ih hrest p hp

theorem filterRegions_mem {b : Board} : ∀ {regs rs : List (List (Nat × Nat))},
    filterRegions b regs = some rs → ∀ reg2 ∈ rs,
    ∃ reg ∈ regs, filterNotFilled b reg = some reg2 := by
  intro regs
  induction regs with
  | nil =>
    intro rs h reg2 hreg2
    unfold filterRegions at h
    cases h
    exact absurd hreg2 (by simp)
  | cons reg regs ih =>
    intro rs h reg2 hreg2
    unfold filterRegions at h
    rcases Option.bind_eq_some.mp h with ⟨r2, hr2, h2⟩
    rcases Option.map_eq_some'.mp h2 with ⟨rest, hrest, rfl⟩
    rcases List.mem_cons.mp hreg2 with rfl | hmem
    · exact ⟨reg, by simp, hr2⟩
    · obtain ⟨rg, hrg, hflt⟩ := ih hrest reg2 hmem
      exact ⟨rg, by simp [hrg], hflt⟩

theorem regenerate_regions_consistent {b b2 : Board}
    (h : b.regenerate_regions = some b2) : Consistent b2 := by
  unfold Board.regenerate_regions at h
  rcases Option.map_eq_some'.mp h with ⟨rs, hrs, rfl⟩
  intro reg2 hreg2 p hp cell hcell
  obtain ⟨reg, hreg, hflt⟩ := filterRegions_mem hrs reg2 hreg2
  obtain ⟨cell1, hcell1, hne⟩ := filterNotFilled_mem hflt p hp
  have : cell1 = cell := Option.some.inj (hcell1.symm.trans hcell)
  exact this ▸ hne

/-! The inner pass is the identity when no cell changes, and the inner loop
always ends on a fixpoint of the pass. -/

theorem enforcePass_parts {b b2 : Board} (h : b.enforcePass = some b2) :
    ∃ b1 b3 b4 b5 b6, b.blackout_cols = some b1 ∧
      b1.blackout_rows.blackout_regions = some b3 ∧
      b3.blackout_star_adjacencies = some b4 ∧
      b4.blackout_next_to_contiguity = some b5 ∧
      b5.eliminate_middle_of_small_empty_regions = some b6 ∧
      b6.regenerate_regions = some b2 := by
  unfold Board.enforcePass at h
  rcases Option.bind_eq_some.mp h with ⟨b1, h1, h⟩
  rcases Option.bind_eq_some.mp h with ⟨b3, h3, h⟩
  rcases Option.bind_eq_some.mp h with ⟨b4, h4, h⟩
  rcases Option.bind_eq_some.mp h with ⟨b5, h5, h⟩
  rcases Option.bind_eq_some.mp h with ⟨b6, h6, h⟩
  exact ⟨b1, b3, b4, b5, b6, h1, h3, h4, h5, h6, h⟩

theorem enforcePass_cells_eq {b b2 : Board} (hcons : Consistent b)
    (h : b.enforcePass = some b2) (hc : b2.cells = b.cells) : b2 = b := by
  obtain ⟨b1, b3, b4, b5, b6, h1, h3, h4, h5, h6, hreg⟩ := enforcePass_parts h
  have s1 := blackout_cols_stepOK h1
  have s2 := blackout_rows_stepOK b1
  have s3 := blackout_regions_stepOK h3
  have s4 := blackout_star_adjacencies_stepOK h4
  have s5 := blackout_next_to_contiguity_stepOK h5
  have s6 := eliminate_middle_stepOK h6
  have hc6 : b6.cells = b.cells := (regenerate_regions_cells hreg).symm.trans hc
  have t6 : BoardMono b5 b6 := s6.1
  have t5 : BoardMono b4 b6 := boardMono_trans s5.1 t6
  have t4 : BoardMono b3 b6 := boardMono_trans s4.1 t5
  have t3 : BoardMono b1.blackout_rows b6 := boardMono_trans s3.1 t4
  have t2 : BoardMono b1 b6 := boardMono_trans s2.1 t3
  have e1 : b.cells = b1.cells := boardMono_antisymm s1.1 t2 hc6.symm
  have e2 : b1.cells = b1.blackout_rows.cells :=
    boardMono_antisymm s2.1 t3 (e1.symm.trans hc6.symm)
  have e3 : b1.blackout_rows.cells = b3.cells :=
    boardMono_antisymm s3.1 t4 (e2.symm.trans (e1.symm.trans hc6.symm))
  have e4 : b3.cells = b4.cells :=
    boardMono_antisymm s4.1 t5 (e3.symm.trans (e2.symm.trans (e1.symm.trans hc6.symm)))
  have e5 : b4.cells = b5.cells :=
    boardMono_antisymm s5.1 t6
      (e4.symm.trans (e3.symm.trans (e2.symm.trans (e1.symm.trans hc6.symm))))
  have e6 : b5.cells = b6.cells :=
    e5.symm.trans (e4.symm.trans (e3.symm.trans (e2.symm.trans (e1.symm.trans hc6.symm))))
  have q1 : b1 = b := stepOK_eq s1 e1.symm
  have q2 : b1.blackout_rows = b1 := stepOK_eq s2 e2.symm
  have q3 : b3 = b1.blackout_rows := stepOK_eq s3 e3.symm
  have q4 : b4 = b3 := stepOK_eq s4 e4.symm
  have q5 : b5 = b4 := stepOK_eq s5 e5.symm
  have q6 : b6 = b5 := stepOK_eq s6 e6.symm
  have q : b6 = b := q6.trans (q5.trans (q4.trans (q3.trans (q2.trans q1))))
  rw [q] at hreg
  exact regenerate_regions_id hcons hreg

theorem enforceAux_fix : ∀ (fuel : Nat) {b b2 : Board},
    enforceAux fuel b = some b2 → b2.enforcePass = some b2 := by
  intro fuel
  induction fuel with
  | zero => intro b b2 h; exact absurd h (by simp [enforceAux])
  | succ n ih =>
    intro b b2 h
    unfold enforceAux at h
    split at h
    · exact Option.noConfusion h
    · rename_i c hp
      split at h
      · rename_i hc
        cases h
        rw [hc] at hp ⊢
        exact hp
      · exact ih h

theorem enforceAux_cells_eq : ∀ (fuel : Nat) {b b2 : Board}, Consistent b →
    enforceAux fuel b = some b2 → b2.cells = b.cells → b2 = b := by
  intro fuel
  induction fuel with
  | zero => intro b b2 _ h; exact absurd h (by simp [enforceAux])
  | succ n ih =>
    intro b b2 hcons h hcells
    unfold enforceAux at h
    split at h
    · exact Option.noConfusion h
    · rename_i c hp
      split at h
      · rename_i hc
        cases h
        exact hc
      · rename_i hc
        have mc : BoardMono b c := (enforcePass_evolves hp).1
        have m2 : BoardMono c b2 := (enforceAux_evolves n h).1
        have hcc : c.cells = b.cells := (boardMono_antisymm mc m2 hcells.symm).symm
        exact absurd (enforcePass_cells_eq hcons hp hcc) hc

theorem enforce_rules_fix {b b2 : Board} (h : b.enforce_rules = some b2) :
    b2.enforcePass = some b2 := enforceAux_fix _ h

theorem enforce_rules_cells_eq {b b2 : Board} (hcons : Consistent b)
    (h : b.enforce_rules = some b2) (hc : b2.cells = b.cells) : b2 = b :=
  enforceAux_cells_eq _ hcons h hc

theorem enforce_rules_consistent {b b2 : Board} (h : b.enforce_rules = some b2) :
    Consistent b2 := by
  have hfix := enforce_rules_fix h
  obtain ⟨b1, b3, b4, b5, b6, _, _, _, _, _, hreg⟩ := enforcePass_parts hfix
  exact regenerate_regions_consistent hreg

/-! Consistency is preserved by the star-placing routines and by the outer
pass, and a productive outer pass strictly decreases the Blank count. -/

theorem starEvolves_filled {a b : Cell} (h : StarEvolves a b)
    (hb : b.state = CellState.Filled) : a.state = CellState.Filled := by
  rcases h with rfl | rfl
  · exact hb
  · unfold Cell.star at hb
    revert hb
    split
    · intro hb; exact absurd hb (by simp)
    · intro hb; exact hb

theorem matStar_noNewFilled {x y : Board} (h : MatRel StarEvolves x.cells y.cells) :
    NoNewFilled x y := by
  intro r c cell2 hget hf
  unfold Board.getCell? at hget ⊢
  rcases Option.bind_eq_some.mp hget with ⟨row2, hrow2, hc2⟩
  obtain ⟨row1, hrow1, hrel⟩ := forall₂_get?_rev h hrow2
  obtain ⟨cell1, hcell1, hrel2⟩ := forall₂_get?_rev hrel hc2
  exact ⟨cell1, Option.bind_eq_some.mpr ⟨row1, hrow1, hcell1⟩, starEvolves_filled hrel2 hf⟩

theorem consistent_of_noNewFilled {x y : Board} (hn : NoNewFilled x y)
    (hreg : y.regions = x.regions) (hcons : Consistent x) : Consistent y := by
  intro reg hregmem p hp cell hcell hf
  obtain ⟨cell1, hcell1, hf1⟩ := hn p.1 p.2 cell hcell hf
  exact hcons reg (hreg ▸ hregmem) p hp cell1 hcell1 hf1

theorem add_required_stars_cols_consistent {b b2 : Board}
    (h : b.add_required_stars_cols = some b2) (hc : Consistent b) : Consistent b2 := by
  unfold Board.add_required_stars_cols at h
  refine optFoldl_preserves ?_ _ _ _ h hc
  intro x a y hy hx
  split at hy
  · exact absurd hy (by simp)
  · rename_i cellsCol hcol
    cases hy
    refine consistent_of_noNewFilled (x := x) (matStar_noNewFilled ?_) rfl hx
    exact setColumn_rel starEvolves_refl x.cells cellsCol _ a hcol
      (slice_rel starEvolves_refl (fun a2 => Or.inr rfl) cellsCol)

theorem add_required_stars_rows_consistent {b : Board} (hc : Consistent b) :
    Consistent b.add_required_stars_rows :=
  consistent_of_noNewFilled
    (matStar_noNewFilled
      (cellsRel_map (slice_rel starEvolves_refl (fun _ => Or.inr rfl)) b.cells))
    rfl hc

theorem add_star_coords_consistent {b b2 : Board} {row col : Nat}
    (h : b.add_star_coords row col = some b2) : Consistent b2 := by
  unfold Board.add_star_coords at h
  split at h
  · exact absurd h (by simp)
  · exact enforce_rules_consistent h

theorem regionStarsStep_consistent {b b2 : Board} {region : List (Nat × Nat)}
    (h : regionStarsStep b region = some b2) (hc : Consistent b) : Consistent b2 := by
  unfold regionStarsStep at h
  split at h
  · exact absurd h (by simp)
  · simp only [] at h
    split at h
    · split at h
      · exact optFoldl_preserves
          (fun _ _ _ hs _ => add_star_coords_consistent hs) _ _ _ h hc
      · split at h
        · split at h
          · split at h
            · exact add_star_coords_consistent h
            · cases h; exact hc
          · cases h; exact hc
        · cases h; exact hc
    · split at h
      · exact optFoldl_preserves
          (fun _ _ _ hs _ => add_star_coords_consistent hs) _ _ _ h hc
      · cases h; exact hc

theorem add_required_stars_region_consistent {b b2 : Board}
    (h : b.add_required_stars_region = some b2) (hc : Consistent b) : Consistent b2 :=
  optFoldl_preserves (fun _ _ _ hs hx => regionStarsStep_consistent hs hx) _ _ _ h hc

theorem solvePass_parts {b b2 : Board} (h : b.solvePass = some b2) :
    ∃ b1 bc b3 b5, b.enforce_rules = some b1 ∧
      b1.add_required_stars_cols = some bc ∧
      bc.enforce_rules = some b3 ∧
      b3.add_required_stars_rows.enforce_rules = some b5 ∧
      b5.add_required_stars_region = some b2 := by
  unfold Board.solvePass at h
  rcases Option.bind_eq_some.mp h with ⟨b1, h1, h⟩
  rcases Option.bind_eq_some.mp h with ⟨bc, hcc, h⟩
  rcases Option.bind_eq_some.mp h with ⟨b3, h3, h⟩
  rcases Option.bind_eq_some.mp h with ⟨b5, h5, h⟩
  exact ⟨b1, bc, b3, b5, h1, hcc, h3, h5, h⟩

theorem solvePass_consistent {b b2 : Board} (h : b.solvePass = some b2) :
    Consistent b2 := by
  obtain ⟨b1, bc, b3, b5, _, _, _, h5, hr⟩ := solvePass_parts h
  exact add_required_stars_region_consistent hr (enforce_rules_consistent h5)

theorem add_star_coords_cells_eq {x y : Board} {row col : Nat} (hcons : Consistent x)
    (h : x.add_star_coords row col = some y) (hc : y.cells = x.cells) : y = x := by
  unfold Board.add_star_coords at h
  split at h
  · exact absurd h (by simp)
  · rename_i x1 hx1
    have m1 : BoardMono x x1 := (starCell_stepOK hx1).1
    have m2 : BoardMono x1 y := (enforce_rules_evolves h).1
    have e1 : x.cells = x1.cells := boardMono_antisymm m1 m2 hc.symm
    have q1 : x1 = x := stepOK_eq (starCell_stepOK hx1) e1.symm
    rw [q1] at h
    exact enforce_rules_cells_eq hcons h hc

theorem optFoldl_addStar_cells_eq : ∀ (l : List (Nat × Nat)) {x y : Board},
    Consistent x →
    optFoldl (fun b3 p => b3.add_star_coords p.1 p.2) x l = some y →
    y.cells = x.cells → y = x := by
  intro l
  induction l with
  | nil =>
    intro x y _ h _
    unfold optFoldl at h
    exact (Option.some.inj h).symm
  | cons a l ih =>
    intro x y hcons h hc
    unfold optFoldl at h
    split at h
    · exact Option.noConfusion h
    · rename_i z hz
      have mz : BoardMono x z := (add_star_coords_evolves hz).1
      have my : BoardMono z y :=
        (optFoldl_rel evolves_refl (fun _ _ _ u v => evolves_trans u v)
          (fun _ _ _ hs => add_star_coords_evolves hs) _ _ _ h).1
      have ez : x.cells = z.cells := boardMono_antisymm mz my hc.symm
      have hzx : z = x := add_star_coords_cells_eq hcons hz ez.symm
      rw [hzx] at h
      exact ih hcons h hc

theorem regionStarsStep_cells_eq {x y : Board} {region : List (Nat × Nat)}
    (hcons : Consistent x) (h : regionStarsStep x region = some y)
    (hc : y.cells = x.cells) : y = x := by
  unfold regionStarsStep at h
  split at h
  · exact absurd h (by simp)
  · simp only [] at h
    split at h
    · split at h
      · exact optFoldl_addStar_cells_eq _ hcons h hc
      · split at h
        · split at h
          · split at h
            · exact add_star_coords_cells_eq hcons h hc
            · exact (Option.some.inj h).symm
          · exact (Option.some.inj h).symm
        · exact (Option.some.inj h).symm
    · split at h
      · exact optFoldl_addStar_cells_eq _ hcons h hc
      · exact (Option.some.inj h).symm

theorem optFoldl_regionStep_cells_eq : ∀ (regs : List (List (Nat × Nat))) {x y : Board},
    Consistent x → optFoldl regionStarsStep x regs = some y →
    y.cells = x.cells → y = x := by
  intro regs
  induction regs with
  | nil =>
    intro x y _ h _
    unfold optFoldl at h
    exact (Option.some.inj h).symm
  | cons reg regs ih =>
    intro x y hcons h hc
    unfold optFoldl at h
    split at h
    · exact Option.noConfusion h
    · rename_i z hz
      have mz : BoardMono x z := (regionStarsStep_evolves hz).1
      have my : BoardMono z y :=
        (optFoldl_rel evolves_refl (fun _ _ _ u v => evolves_trans u v)
          (fun _ _ _ hs => regionStarsStep_evolves hs) _ _ _ h).1
      have ez : x.cells = z.cells := boardMono_antisymm mz my hc.symm
      have hzx : z = x := regionStarsStep_cells_eq hcons hz ez.symm
      rw [hzx] at h
      exact ih hcons h hc

theorem add_required_stars_region_cells_eq {x y : Board} (hcons : Consistent x)
    (h : x.add_required_stars_region = some y) (hc : y.cells = x.cells) : y = x :=
  optFoldl_regionStep_cells_eq _ hcons h hc

theorem solvePass_cells_eq {b b2 : Board} (hcons : Consistent b)
    (h : b.solvePass = some b2) (hc : b2.cells = b.cells) : b2 = b := by
  obtain ⟨b1, bc, b3, b5, h1, hcc, h3, h5, hr⟩ := solvePass_parts h
  have m1 : BoardMono b b1 := (enforce_rules_evolves h1).1
  have m2 : BoardMono b1 bc := (add_required_stars_cols_stepOK hcc).1
  have m3 : BoardMono bc b3 := (enforce_rules_evolves h3).1
  have m4 : BoardMono b3 b3.add_required_stars_rows := (add_required_stars_rows_stepOK b3).1
  have m5 : BoardMono b3.add_required_stars_rows b5 := (enforce_rules_evolves h5).1
  have m6 : BoardMono b5 b2 := (add_required_stars_region_evolves hr).1
  have t2 : BoardMono b1 b2 := boardMono_trans m2 (boardMono_trans m3
    (boardMono_trans m4 (boardMono_trans m5 m6)))
  have t3 : BoardMono bc b2 := boardMono_trans m3
    (boardMono_trans m4 (boardMono_trans m5 m6))
  have t4 : BoardMono b3 b2 := boardMono_trans m4 (boardMono_trans m5 m6)
  have t5 : BoardMono b3.add_required_stars_rows b2 := boardMono_trans m5 m6
  have e1 : b.cells = b1.cells := boardMono_antisymm m1 t2 hc.symm
  have e2 : b1.cells = bc.cells := boardMono_antisymm m2 t3 (e1.symm.trans hc.symm)
  have e3 : bc.cells = b3.cells :=
    boardMono_antisymm m3 t4 (e2.symm.trans (e1.symm.trans hc.symm))
  have e4 : b3.cells = b3.add_required_stars_rows.cells :=
    boardMono_antisymm m4 t5 (e3.symm.trans (e2.symm.trans (e1.symm.trans hc.symm)))
  have e5 : b3.add_required_stars_rows.cells = b5.cells :=
    boardMono_antisymm m5 m6
      (e4.symm.trans (e3.symm.trans (e2.symm.trans (e1.symm.trans hc.symm))))
  have q1 : b1 = b := enforce_rules_cells_eq hcons h1 e1.symm
  have hconsb1 : Consistent b1 := q1 ▸ hcons
  have q2 : bc = b1 := stepOK_eq (add_required_stars_cols_stepOK hcc) e2.symm
  have hconsbc : Consistent bc := q2 ▸ hconsb1
  have q3 : b3 = bc := enforce_rules_cells_eq hconsbc h3 e3.symm
  have q4 : b3.add_required_stars_rows = b3 :=
    stepOK_eq (add_required_stars_rows_stepOK b3) e4.symm
  have hconsb3 : Consistent b3 := q3 ▸ hconsbc
  have hconsb4 : Consistent b3.add_required_stars_rows := by rw [q4]; exact hconsb3
  have q5 : b5 = b3.add_required_stars_rows := enforce_rules_cells_eq hconsb4 h5 e5.symm
  have hconsb5 : Consistent b5 := q5 ▸ hconsb4
  have e6 : b2.cells = b5.cells := by
    rw [hc, e1, e2, e3, e4, e5]
  have q6 : b2 = b5 := add_required_stars_region_cells_eq hconsb5 hr e6
  rw [q6, q5, q4, q3, q2, q1]

theorem solvePass_productive {b b2 : Board} (hcons : Consistent b)
    (h : b.solvePass = some b2) (hne : b2 ≠ b) : b2.countBlanks < b.countBlanks := by
  by_cases hc : b2.cells = b.cells
  · exact absurd (solvePass_cells_eq hcons h hc) hne
  · exact boardMono_count_lt (solvePass_evolves h).1 (fun he => hc he.symm)

theorem solveAux_fuel : ∀ (n f : Nat) (b : Board), Consistent b →
    b.countBlanks < n → n ≤ f → solveAux f b = solveAux n b := by
  intro n
  induction n with
  | zero => intro f b _ hlt _; exact absurd hlt (by omega)
  | succ m ih =>
    intro f b hcons hlt hf
    obtain ⟨f0, rfl⟩ : ∃ f0, f = f0 + 1 := ⟨f - 1, by omega⟩
    show solveAux (f0 + 1) b = solveAux (m + 1) b
    unfold solveAux
    cases hp : b.solvePass with
    | none => rfl
    | some c =>
      simp only []
      by_cases hc : c = b
      · simp only [if_pos hc]
      · rw [if_neg hc, if_neg hc]
        by_cases hm : m = 0
        · subst hm
          have := solvePass_productive hcons hp hc
          omega
        · exact ih f0 c (solvePass_consistent hp)
            (by have := solvePass_productive hcons hp hc; omega) (by omega)

/-! Properties of Board.new, the adjacency relation, and Blank indices. -/

theorem new_getCell (w h : Nat) (tags : List (List Nat)) (r c : Nat) :
    (Board.new w h tags).getCell? r c =
      ((tags.get? r).bind fun row => row.get? c).map fun t =>
        { region := t, state := CellState.Blank } := by
  show ((Board.blank_from_regions tags).get? r).bind (fun r2 => r2.get? c) = _
  unfold Board.blank_from_regions
  rw [List.get?_map]
  cases tags.get? r with
  | none => rfl
  | some trow =>
    show (trow.map fun t => ({ region := t, state := CellState.Blank } : Cell)).get? c =
      (trow.get? c).map fun t => { region := t, state := CellState.Blank }
    rw [List.get?_map]

theorem consistent_new (w h : Nat) (tags : List (List Nat)) :
    Consistent (Board.new w h tags) := by
  intro reg hreg p hp cell hcell
  rw [new_getCell] at hcell
  rcases Option.map_eq_some'.mp hcell with ⟨t, _, rfl⟩
  simp

theorem countBlanksRow_le_length (r : List Cell) : countBlanksRow r ≤ r.length :=
  List.countP_le_length _

theorem countBlanks_new {w h : Nat} {tags : List (List Nat)} (hh : tags.length = h)
    (hw : ∀ row ∈ tags, row.length = w) :
    (Board.new w h tags).countBlanks ≤ h * w := by
  show ((Board.blank_from_regions tags).map countBlanksRow).sum ≤ h * w
  unfold Board.blank_from_regions
  rw [List.map_map]
  subst hh
  induction tags with
  | nil => simp
  | cons row rest ih =>
    simp only [List.map_cons, List.sum_cons, List.length_cons, Function.comp]
    have h1 : countBlanksRow (row.map fun t =>
        ({ region := t, state := CellState.Blank } : Cell)) ≤ w := by
      calc countBlanksRow _ ≤ (row.map fun t =>
            ({ region := t, state := CellState.Blank } : Cell)).length :=
            countBlanksRow_le_length _
        _ = row.length := by rw [List.length_map]
        _ = w := hw row (by simp)
    have h2 := ih (fun q hq => hw q (by simp [hq]))
    have h3 : (rest.length + 1) * w = rest.length * w + w := by ring
    rw [h3]
    omega

theorem new_width (w h : Nat) (tags : List (List Nat)) : (Board.new w h tags).width = w := rfl

theorem new_height (w h : Nat) (tags : List (List Nat)) : (Board.new w h tags).height = h := rfl

theorem new_cells_shape (w h : Nat) (tags : List (List Nat)) :
    (Board.new w h tags).cells.length = tags.length ∧
      ∀ i trow, tags.get? i = some trow →
        ∃ crow, (Board.new w h tags).cells.get? i = some crow ∧
          crow.length = trow.length := by
  constructor
  · show (Board.blank_from_regions tags).length = tags.length
    unfold Board.blank_from_regions
    rw [List.length_map]
  · intro i trow htrow
    show ∃ crow, (Board.blank_from_regions tags).get? i = some crow ∧ _
    unfold Board.blank_from_regions
    rw [List.get?_map, htrow]
    exact ⟨_, rfl, by rw [List.length_map]⟩

theorem boardMono_preserves_nonBlank {x y : Board} (h : BoardMono x y) :
    ∀ r c cell, x.getCell? r c = some cell → cell.state ≠ CellState.Blank →
      y.getCell? r c = some cell := by
  intro r c cell hget hnb
  unfold Board.getCell? at hget ⊢
  rcases Option.bind_eq_some.mp hget with ⟨row, hrow, hcell⟩
  obtain ⟨row2, hrow2, hrel⟩ := forall₂_get? h hrow
  obtain ⟨cell2, hcell2, hrel2⟩ := forall₂_get? hrel hcell
  have hcc : cell2 = cell := by
    rcases hrel2 with rfl | ⟨hb, _⟩
    · rfl
    · exact absurd hb hnb
  exact Option.bind_eq_some.mpr ⟨row2, hrow2, hcc ▸ hcell2⟩

theorem adj_mem_iff (w h r c r2 c2 : Nat) :
    (r2, c2) ∈ adjacencies w h r c ↔
      r < h ∧ c < w ∧ r2 < h ∧ c2 < w ∧ ¬(r2 = r ∧ c2 = c) ∧
        (r2 + 1 = r ∨ r2 = r ∨ r2 = r + 1) ∧
        (c2 + 1 = c ∨ c2 = c ∨ c2 = c + 1) := by
  unfold adjacencies
  split_ifs <;> simp [Prod.ext_iff] <;> omega

theorem adjacencies_symm {w h : Nat} {p q : Nat × Nat}
    (hm : p ∈ adjacencies w h q.1 q.2) : q ∈ adjacencies w h p.1 p.2 := by
  cases p; cases q
  rw [adj_mem_iff] at hm ⊢
  omega

theorem fst_mem_enumFrom {α : Type} :
    ∀ (l : List α) (n : Nat) (p : Nat × α), p ∈ List.enumFrom n l → n ≤ p.1 := by
  intro l
  induction l with
  | nil => intro n p hp; exact absurd hp (by simp)
  | cons a l ih =>
    intro n p hp
    rcases List.mem_cons.mp hp with rfl | hp2
    · exact le_refl _
    · have := ih (n + 1) p hp2
      omega

theorem pairwise_fst_enumFrom {α : Type} :
    ∀ (l : List α) (n : Nat),
      (List.enumFrom n l).Pairwise (fun p q => p.1 < q.1) := by
  intro l
  induction l with
  | nil => intro n; simp
  | cons a l ih =>
    intro n
    refine List.Pairwise.cons ?_ (ih (n + 1))
    intro q hq
    have := fst_mem_enumFrom l (n + 1) q hq
    omega

theorem blanksIdx_pairwise (cs : List Cell) : (blanksIdx cs).Pairwise (· < ·) := by
  unfold blanksIdx
  rw [List.pairwise_map]
  refine List.Pairwise.filter _ ?_
  have := pairwise_fst_enumFrom cs 0
  rw [List.enum]
  exact this

/-! Helper lemmas for the claim theorems. -/

theorem optFoldl_congr_id {α : Type} {f : Board → α → Option Board} {b : Board} :
    ∀ l : List α, (∀ a ∈ l, f b a = some b) → optFoldl f b l = some b := by
  intro l
  induction l with
  | nil => intro _; rfl
  | cons a l ih =>
    intro hstep
    have h1 := hstep a (by simp)
    show (match f b a with | none => none | some b2 => optFoldl f b2 l) = some b
    rw [h1]
    exact ih (fun q hq => hstep q (by simp [hq]))

theorem elim_region_step_skip {b : Board} {reg : List (Nat × Nat)}
    (h : reg = [] ∨ ((regional_stars? b reg).isSome ∧ regional_stars? b reg ≠ some 0)) :
    elim_region_step b reg = some b := by
  unfold elim_region_step
  rcases h with rfl | ⟨hsome, hne⟩
  · rfl
  · cases hget : regional_stars? b reg with
    | none => rw [hget] at hsome; exact absurd hsome (by simp)
    | some sc =>
      have hsc : sc ≠ 0 := fun h0 => hne (by rw [hget, h0])
      simp [hsc]

/-! Claims. -/

/-- C1: the specification states that solve never fails once construction
succeeded.  The code contradicts this: on the board built from the 1 × 1
region matrix [[0]], rule R3 reaches the one-cell star-free region
{(0, 0)} with max_row = 0 and computes mid_row = max_row - 1, an
underflow; the debug profile panics at the subtraction, and in release the
wrapped index makes cells[mid_row] panic.  solve aborts (modelled: none). -/
theorem C1_solve_panics_on_one_cell_board :
    Board.solve (Board.new 1 1 [[0]]) = none := by decide

/-- C2 counterexample: rule R3 applied to a board whose region 0 is a single
star-free cell does change the board (it shades the bounding-box band), so
R3 on a 1-coordinate region is not a no-op as claimed. -/
theorem C2_small_region_not_noop :
    Board.eliminate_middle_of_small_empty_regions cbTiny ≠ some cbTiny := by decide

/-- C2 amended: when every region of the board is skipped by R3's test —
its coordinate list is empty or its star count is nonzero — the rule is a
no-op and returns the board unchanged.  That test has no minimum region
size, so a star-free region with one or two coordinates is not necessarily
skipped: the counterexample shows a lone-blank region changing the board. -/
theorem C2_elim_skips_regions_with_stars (b : Board)
    (hreg : ∀ reg ∈ b.regions, reg = [] ∨
      ((regional_stars? b reg).isSome ∧ regional_stars? b reg ≠ some 0)) :
    b.eliminate_middle_of_small_empty_regions = some b := by
  unfold Board.eliminate_middle_of_small_empty_regions
  exact optFoldl_congr_id b.regions (fun reg hmem => elim_region_step_skip (hreg reg hmem))

/-- C2 amended, witness: on the 1 × 2 board whose single region holds a
Star, R3 is the identity. -/
theorem C2_elim_skips_witness :
    Board.eliminate_middle_of_small_empty_regions bStar = some bStar :=
  C2_elim_skips_regions_with_stars bStar (by decide)

/-- C4 counterexample: with Blanks (0,0), (0,1), (1,1) — first pair
king-adjacent — the R7 selection stars (1,1), which IS king-adjacent to both
other Blanks, contradicting the claim that the starred Blank is adjacent to
neither. -/
theorem C4_starred_cell_can_touch_other_blanks :
    pick_region_star 10 10 (0, 0) (0, 1) (1, 1) = some (1, 1) ∧
      ((1, 1) : Nat × Nat) ∈ adjacencies 10 10 0 0 ∧
      ((1, 1) : Nat × Nat) ∈ adjacencies 10 10 0 1 := by decide

/-- C4 amended: when exactly one of the three pairs of Blanks is mutually
king-adjacent, the R7 selection stars the Blank outside that pair, and that
Blank is king-adjacent to neither of the other two.  (When several pairs are
adjacent, the code stars the cell outside the first adjacent pair in the
check order (b0,b1), (b1,b2), (b0,b2), which may touch a remaining Blank, as
the counterexample shows.) -/
theorem C4_unique_pair_starred_cell_isolated (w h : Nat) (p0 p1 p2 : Nat × Nat) :
    (p1 ∈ adjacencies w h p0.1 p0.2 → p2 ∉ adjacencies w h p1.1 p1.2 →
      p2 ∉ adjacencies w h p0.1 p0.2 →
      pick_region_star w h p0 p1 p2 = some p2 ∧
        p0 ∉ adjacencies w h p2.1 p2.2 ∧ p1 ∉ adjacencies w h p2.1 p2.2) ∧
    (p1 ∉ adjacencies w h p0.1 p0.2 → p2 ∈ adjacencies w h p1.1 p1.2 →
      p2 ∉ adjacencies w h p0.1 p0.2 →
      pick_region_star w h p0 p1 p2 = some p0 ∧
        p1 ∉ adjacencies w h p0.1 p0.2 ∧ p2 ∉ adjacencies w h p0.1 p0.2) ∧
    (p1 ∉ adjacencies w h p0.1 p0.2 → p2 ∉ adjacencies w h p1.1 p1.2 →
      p2 ∈ adjacencies w h p0.1 p0.2 →
      pick_region_star w h p0 p1 p2 = some p1 ∧
        p0 ∉ adjacencies w h p1.1 p1.2 ∧ p2 ∉ adjacencies w h p1.1 p1.2) := by
  refine ⟨?_, ?_, ?_⟩
  · intro h1 h2 h3
    unfold pick_region_star
    rw [if_pos h1]
    exact ⟨rfl, fun hm => h3 (adjacencies_symm hm), fun hm => h2 (adjacencies_symm hm)⟩
  · intro h1 h2 h3
    unfold pick_region_star
    rw [if_neg h1, if_pos h2]
    exact ⟨rfl, h1, h3⟩
  · intro h1 h2 h3
    unfold pick_region_star
    rw [if_neg h1, if_neg h2, if_pos h3]
    exact ⟨rfl, fun hm => h1 (adjacencies_symm hm), h2⟩

/-- C4 amended, witness at the single-adjacent-pair configuration (0,0),
(0,1), (5,5): the starred cell (5,5) touches neither other Blank. -/
theorem C4_unique_pair_witness :
    pick_region_star 10 10 (0, 0) (0, 1) (5, 5) = some (5, 5) ∧
      ((0, 0) : Nat × Nat) ∉ adjacencies 10 10 5 5 ∧
      ((0, 1) : Nat × Nat) ∉ adjacencies 10 10 5 5 :=
  (C4_unique_pair_starred_cell_isolated 10 10 (0, 0) (0, 1) (5, 5)).1
    (by decide) (by decide) (by decide)

/-- C5 counterexample: the claim orders the inner pass R1, R2, R3, R4, R5,
but the source calls blackout_next_to_contiguity (R4) before
eliminate_middle_of_small_empty_regions (R3).  On cbOrder the two orders
produce different boards (in the spec order, R3 first removes one of the
four Blanks of row 1, so R4 no longer fires and cell (2, 0) stays Blank). -/
theorem C5_pass_order_differs :
    Board.enforcePassSpecOrder cbOrder ≠ Board.enforcePass cbOrder := by decide

/-- C5 amended: each pass of the inner loop applies, in source order, R1
(columns, rows, regions), R2 (star adjacencies), R4 (edge contiguity), R3
(small-region middle elimination), then R5 (region rebuild) — that is the
definition of enforcePass — and the loop repeats until a full pass leaves
the board unchanged: every normal result of enforce_rules is a fixpoint of
the code-ordered pass. -/
theorem C5_inner_loop_reaches_pass_fixpoint (b b2 : Board)
    (h : b.enforce_rules = some b2) : b2.enforcePass = some b2 :=
  enforce_rules_fix h

/-- C5 amended, witness: the inner loop run on bStar stops at bStarFix,
which one further code-ordered pass leaves unchanged. -/
theorem C5_inner_loop_witness :
    Board.enforce_rules bStar = some bStarFix ∧
      Board.enforcePass bStarFix = some bStarFix :=
  ⟨by decide, C5_inner_loop_reaches_pass_fixpoint bStar bStarFix (by decide)⟩

/-- C6 counterexample: Board::new performs no validation and cannot fail.
Given width = height = 5 and the 1 × 1 tag matrix [[0]], it happily returns
a Board whose width and height fields say 5 but whose cell matrix has a
single row — no InvalidInput error exists anywhere in the code. -/
theorem C6_new_accepts_mismatched_dimensions :
    (Board.new 5 5 [[0]]).cells.length = 1 ∧ (Board.new 5 5 [[0]]).width = 5 ∧
      (Board.new 5 5 [[0]]).height = 5 := by decide

/-- C6 amended: construction never fails and performs no validation: for
every width, height and tag matrix (mismatched or ragged included),
Board::new returns a Board carrying the given width and height verbatim,
with one all-Blank cell row per tag row, each cell copying its tag. -/
theorem C6_new_never_validates (w h : Nat) (tags : List (List Nat)) (r c : Nat) :
    (Board.new w h tags).width = w ∧ (Board.new w h tags).height = h ∧
      (Board.new w h tags).cells.length = tags.length ∧
      (Board.new w h tags).getCell? r c =
        ((tags.get? r).bind fun row => row.get? c).map fun t =>
          { region := t, state := CellState.Blank } :=
  ⟨rfl, rfl, (new_cells_shape w h tags).1, new_getCell w h tags r c⟩

/-- C10: the claim says solved(H, W, stars) produces a Board of exactly H
rows and W columns; the source instead allocates a hardcoded 10 × 10
all-Filled matrix (vec![vec![..; 10]; 10]).  At H = W = 3 the returned cell
matrix has 10 rows of 10 cells. -/
theorem C10_solved_is_hardcoded_ten_by_ten :
    (Board.solved 3 3 [(0, 2), (0, 2), (0, 2)]).map (fun b => b.cells.length) =
        some 10 ∧
      (Board.solved 3 3 [(0, 2), (0, 2), (0, 2)]).map
          (fun b => b.cells.map List.length) =
        some [10, 10, 10, 10, 10, 10, 10, 10, 10, 10] := by decide

/-- C8: monotonicity of all cell transitions.  The shade and star primitives
are no-ops on non-Blank cells, every solver routine only evolves cells along
CellEvolves (so a cell is either unchanged or was Blank), and consequently no
routine ever changes a Star or Filled cell: the only possible transitions
are Blank to Star and Blank to Filled. -/
theorem C8_monotone_transitions :
    (∀ c : Cell, c.state ≠ CellState.Blank → c.shade = c ∧ c.star = c) ∧
    (∀ b b2 : Board, b.blackout_cols = some b2 → BoardMono b b2) ∧
    (∀ b : Board, BoardMono b b.blackout_rows) ∧
    (∀ b b2 : Board, b.blackout_regions = some b2 → BoardMono b b2) ∧
    (∀ b b2 : Board, b.blackout_star_adjacencies = some b2 → BoardMono b b2) ∧
    (∀ b b2 : Board, b.blackout_next_to_contiguity = some b2 → BoardMono b b2) ∧
    (∀ b b2 : Board, b.eliminate_middle_of_small_empty_regions = some b2 →
      BoardMono b b2) ∧
    (∀ b b2 : Board, b.regenerate_regions = some b2 → BoardMono b b2) ∧
    (∀ b : Board, BoardMono b b.add_required_stars_rows) ∧
    (∀ b b2 : Board, b.add_required_stars_cols = some b2 → BoardMono b b2) ∧
    (∀ b b2 : Board, b.add_required_stars_region = some b2 → BoardMono b b2) ∧
    (∀ b b2 : Board, b.enforce_rules = some b2 → BoardMono b b2) ∧
    (∀ b b2 : Board, b.solve = some b2 → BoardMono b b2) ∧
    (∀ b b2 : Board, BoardMono b b2 → ∀ r c cell, b.getCell? r c = some cell →
      cell.state ≠ CellState.Blank → b2.getCell? r c = some cell) := by
  refine ⟨?_, ?_, ?_, ?_, ?_, ?_, ?_, ?_, ?_, ?_, ?_, ?_, ?_, ?_⟩
  · intro c hc
    constructor
    · unfold Cell.shade; rw [if_neg hc]
    · unfold Cell.star; rw [if_neg hc]
  · exact fun b b2 h => (blackout_cols_stepOK h).1
  · exact fun b => (blackout_rows_stepOK b).1
  · exact fun b b2 h => (blackout_regions_stepOK h).1
  · exact fun b b2 h => (blackout_star_adjacencies_stepOK h).1
  · exact fun b b2 h => (blackout_next_to_contiguity_stepOK h).1
  · exact fun b b2 h => (eliminate_middle_stepOK h).1
  · exact fun b b2 h => (regenerate_regions_evolves h).1
  · exact fun b => (add_required_stars_rows_stepOK b).1
  · exact fun b b2 h => (add_required_stars_cols_stepOK h).1
  · exact fun b b2 h => (add_required_stars_region_evolves h).1
  · exact fun b b2 h => (enforce_rules_evolves h).1
  · exact fun b b2 h => (solve_evolves h).1
  · exact fun b b2 h => boardMono_preserves_nonBlank h

/-- C8 witness: the primitives are no-ops on a Star cell. -/
theorem C8_monotone_witness :
    Cell.shade { region := 0, state := CellState.Star } =
        { region := 0, state := CellState.Star } ∧
      Cell.star { region := 0, state := CellState.Star } =
        { region := 0, state := CellState.Star } :=
  C8_monotone_transitions.1 { region := 0, state := CellState.Star } (by decide)

/-- C9: termination of solve on constructed boards.  The Blank count of a
constructed board is at most height · width, every productive outer pass
(on a consistent board — Board::new always yields one) strictly decreases
the Blank count, and therefore the outer loop stabilises within
countBlanks + 1 ≤ h·w + 1 iterations: all fuels from that bound on yield
the same result as Board.solve. -/
theorem C9_solve_terminates (w h : Nat) (tags : List (List Nat))
    (hh : tags.length = h) (hw : ∀ row ∈ tags, row.length = w) :
    (Board.new w h tags).countBlanks ≤ h * w ∧
    (∀ x y : Board, Consistent x → x.solvePass = some y → y ≠ x →
      y.countBlanks < x.countBlanks) ∧
    Consistent (Board.new w h tags) ∧
    (∀ f, (Board.new w h tags).countBlanks + 1 ≤ f →
      solveAux f (Board.new w h tags) = Board.solve (Board.new w h tags)) ∧
    (∀ f, h * w + 1 ≤ f →
      solveAux f (Board.new w h tags) = Board.solve (Board.new w h tags)) := by
  have hcount : (Board.new w h tags).countBlanks ≤ h * w := countBlanks_new hh hw
  have hconsk : Consistent (Board.new w h tags) := consistent_new w h tags
  have hfuel : ∀ f, (Board.new w h tags).countBlanks + 1 ≤ f →
      solveAux f (Board.new w h tags) = Board.solve (Board.new w h tags) := by
    intro f hf
    exact solveAux_fuel ((Board.new w h tags).countBlanks + 1) f (Board.new w h tags)
      hconsk (by omega) hf
  refine ⟨hcount, ?_, hconsk, hfuel, ?_⟩
  · exact fun x y hc hp hne => solvePass_productive hc hp hne
  · intro f hf
    exact hfuel f (by omega)

/-- C9 witness at the 1 × 1 board: one Blank, so fuel 5 already agrees with
Board.solve. -/
theorem C9_solve_terminates_witness :
    (Board.new 1 1 [[0]]).countBlanks ≤ 1 * 1 ∧
      solveAux 5 (Board.new 1 1 [[0]]) = Board.solve (Board.new 1 1 [[0]]) :=
  ⟨(C9_solve_terminates 1 1 [[0]] (by decide) (by decide)).1,
    (C9_solve_terminates 1 1 [[0]] (by decide) (by decide)).2.2.2.1 5 (by decide)⟩

/-- C7: the complete case analysis of rule R6 on one line
(add_required_stars_slice), exactly as the claim states it: with no Star and
at most two Blanks every cell is starred via the star primitive (a no-op on
non-Blanks, so exactly the Blanks get starred); with no Star and three
Blanks, the third Blank is starred when the first two sit at adjacent
positions, else the first Blank is starred when the last two are adjacent,
else nothing changes; with one Star and a single Blank, that Blank is
starred; in every other configuration the slice is unchanged. -/
theorem C7_slice_cases (s : List Cell) :
    (starCount s = 0 → (blanksIdx s).length ≤ 2 →
      ∀ i, (add_required_stars_slice s).get? i = (s.get? i).map Cell.star) ∧
    (∀ b0 b1 b2, starCount s = 0 → blanksIdx s = [b0, b1, b2] → b1 = b0 + 1 →
      add_required_stars_slice s = starAt s b2) ∧
    (∀ b0 b1 b2, starCount s = 0 → blanksIdx s = [b0, b1, b2] → b1 ≠ b0 + 1 →
      b2 = b1 + 1 → add_required_stars_slice s = starAt s b0) ∧
    (∀ b0 b1 b2, starCount s = 0 → blanksIdx s = [b0, b1, b2] → b1 ≠ b0 + 1 →
      b2 ≠ b1 + 1 → add_required_stars_slice s = s) ∧
    (starCount s = 1 → (blanksIdx s).length = 1 →
      ∀ i, (add_required_stars_slice s).get? i = (s.get? i).map Cell.star) ∧
    (starCount s = 0 → 4 ≤ (blanksIdx s).length → add_required_stars_slice s = s) ∧
    (2 ≤ starCount s → add_required_stars_slice s = s) ∧
    (starCount s = 1 → (blanksIdx s).length ≠ 1 → add_required_stars_slice s = s) := by
  refine ⟨?_, ?_, ?_, ?_, ?_, ?_, ?_, ?_⟩
  · intro h0 hlen i
    unfold add_required_stars_slice
    simp only []
    rw [if_pos h0, if_pos hlen, List.get?_map]
  · intro b0 b1 b2 h0 hb hadj
    have hp := blanksIdx_pairwise s
    rw [hb] at hp
    simp only [List.pairwise_cons, List.mem_cons, List.mem_singleton,
      List.not_mem_nil] at hp
    unfold add_required_stars_slice
    simp only [hb, List.length_cons, List.length_nil]
    rw [if_pos h0]
    split_ifs
    all_goals first | rfl | omega
  · intro b0 b1 b2 h0 hb hnadj hadj2
    have hp := blanksIdx_pairwise s
    rw [hb] at hp
    simp only [List.pairwise_cons, List.mem_cons, List.mem_singleton,
      List.not_mem_nil] at hp
    unfold add_required_stars_slice
    simp only [hb, List.length_cons, List.length_nil]
    rw [if_pos h0]
    split_ifs
    all_goals first | rfl | omega
  · intro b0 b1 b2 h0 hb hnadj hnadj2
    have hp := blanksIdx_pairwise s
    rw [hb] at hp
    simp only [List.pairwise_cons, List.mem_cons, List.mem_singleton,
      List.not_mem_nil] at hp
    unfold add_required_stars_slice
    simp only [hb, List.length_cons, List.length_nil]
    rw [if_pos h0]
    split_ifs
    all_goals first | rfl | omega
  · intro h1 hlen i
    unfold add_required_stars_slice
    simp only []
    rw [if_neg (by omega), if_pos (by omega), List.get?_map]
  · intro h0 hlen
    unfold add_required_stars_slice
    simp only []
    rw [if_pos h0, if_neg (by omega), if_neg (by omega)]
  · intro h2
    unfold add_required_stars_slice
    simp only []
    rw [if_neg (by omega), if_neg (by omega)]
  · intro h1 hlen
    unfold add_required_stars_slice
    simp only []
    rw [if_neg (by omega), if_neg (by omega)]

/-- C7 witness (scenario S2): the line with Blanks at positions 0, 1, 4 and
no Star gets its Blank at position 4 starred (the first two Blanks are
adjacent, so the third is starred). -/
theorem C7_slice_cases_witness :
    starCount s2Demo = 0 ∧ blanksIdx s2Demo = [0, 1, 4] ∧
      add_required_stars_slice s2Demo = starAt s2Demo 4 ∧
      (starAt s2Demo 4).get? 4 = some { region := 0, state := CellState.Star } :=
  ⟨by decide, by decide,
    (C7_slice_cases s2Demo).2.1 0 1 4 (by decide) (by decide) (by decide),
    by decide⟩

/-! Rule R3 on a horizontal 1 × 3 strip (analysis for C3). -/

theorem rangeIncl_self (a : Nat) : rangeIncl a a = [a] := by
  unfold rangeIncl
  rw [show a + 1 - a = 1 from by omega]
  simp [List.range_succ]

theorem shade_coords_spec {b : Board} {row col : Nat} {cell : Cell}
    (hget : b.getCell? row col = some cell) :
    ∃ b2, b.shade_coords row col = some b2 ∧
      b2.getCell? row col = some cell.shade ∧
      (∀ q : Nat × Nat, q ≠ (row, col) → b2.getCell? q.1 q.2 = b.getCell? q.1 q.2) ∧
      b2.width = b.width ∧ b2.height = b.height ∧ b2.regions = b.regions := by
  have hget' := hget
  unfold Board.getCell? at hget'
  rcases Option.bind_eq_some.mp hget' with ⟨r, hr, hc⟩
  obtain ⟨hrlt, _⟩ := List.get?_eq_some.mp hr
  obtain ⟨hclt, _⟩ := List.get?_eq_some.mp hc
  refine ⟨{ b with cells := b.cells.set row (r.set col cell.shade) }, ?_, ?_, ?_, rfl, rfl, rfl⟩
  · unfold Board.shade_coords modifyCell
    rw [hr]
    simp only [Option.some_bind, hc, Option.map_some']
  · show ((b.cells.set row (r.set col cell.shade)).get? row).bind (fun r2 => r2.get? col) = _
    rw [List.get?_set_eq_of_lt _ hrlt]
    simp only [Option.some_bind]
    rw [List.get?_set_eq_of_lt _ hclt]
  · intro q hq
    show ((b.cells.set row (r.set col cell.shade)).get? q.1).bind (fun r2 => r2.get? q.2) =
      (b.cells.get? q.1).bind fun r2 => r2.get? q.2
    by_cases hq1 : q.1 = row
    · have hq2 : q.2 ≠ col := by
        intro h2
        exact hq (by cases q; simp_all)
      rw [hq1, List.get?_set_eq_of_lt _ hrlt, hr]
      simp only [Option.some_bind]
      rw [List.get?_set_ne _ _ (fun he => hq2 he.symm)]
    · rw [List.get?_set_ne _ _ (fun he => hq1 he.symm)]

theorem shadeList_spec : ∀ (ps : List (Nat × Nat)) (b : Board),
    (∀ p ∈ ps, ∃ cell, b.getCell? p.1 p.2 = some cell) →
    ps.Pairwise (· ≠ ·) →
    ∃ b2, shadeList b ps = some b2 ∧
      (∀ p ∈ ps, b2.getCell? p.1 p.2 = (b.getCell? p.1 p.2).map Cell.shade) ∧
      (∀ q : Nat × Nat, q ∉ ps → b2.getCell? q.1 q.2 = b.getCell? q.1 q.2) ∧
      b2.width = b.width ∧ b2.height = b.height ∧ b2.regions = b.regions := by
  intro ps
  induction ps with
  | nil =>
    intro b _ _
    exact ⟨b, rfl, by simp, fun q _ => rfl, rfl, rfl, rfl⟩
  | cons p ps ih =>
    intro b hps hnd
    obtain ⟨cell, hcell⟩ := hps p (by simp)
    obtain ⟨b1, hstep, hat, hother, hw, hh, hr⟩ := shade_coords_spec hcell
    have hhead : ∀ q ∈ ps, p ≠ q := (List.pairwise_cons.mp hnd).1
    have hreads : ∀ q ∈ ps, ∃ cell2, b1.getCell? q.1 q.2 = some cell2 := by
      intro q hq
      obtain ⟨cell2, hc2⟩ := hps q (by simp [hq])
      exact ⟨cell2, by rw [hother q (fun he => hhead q hq he.symm)]; exact hc2⟩
    obtain ⟨b2, hstep2, hat2, hother2, hw2, hh2, hr2⟩ :=
      ih b1 hreads (List.pairwise_cons.mp hnd).2
    refine ⟨b2, ?_, ?_, ?_, hw2.trans hw, hh2.trans hh, hr2.trans hr⟩
    · show (match b.shade_coords p.1 p.2 with
        | none => none
        | some z => shadeList z ps) = some b2
      rw [show b.shade_coords p.1 p.2 = some b1 from hstep]
      exact hstep2
    · intro q hq
      rcases List.mem_cons.mp hq with rfl | hq2
      · have hnotin : q ∉ ps := fun hmem => hhead q hmem rfl
        rw [hother2 q hnotin, hat, hcell]
        rfl
      · rw [hat2 q hq2, hother q (fun he => hhead q hq2 he.symm)]
    · intro q hq
      have h1 : q ∉ ps := fun hmem => hq (by simp [hmem])
      have h2 : q ≠ p := fun he => hq (by simp [he])
      rw [hother2 q h1, hother q h2]

theorem elim_region_step_strip (b : Board) (r c : Nat)
    (hrs : regional_stars? b [(r, c), (r, c + 1), (r, c + 2)] = some 0) :
    elim_region_step b [(r, c), (r, c + 1), (r, c + 2)] =
      match usizeSub b.width 1 with
      | none => none
      | some wm1 =>
        shadeList b (([(r, c + 1)] ++ if c ≠ 0 then [(r, c - 1)] else []) ++
          if c + 2 < wm1 then [(r, c + 3)] else []) := by
  have hminr : listMin [r, r, r] = r := by
    simp [listMin]
  have hmaxr : listMax [r, r, r] = r := by
    simp [listMax]
  have hminc : listMin [c, c + 1, c + 2] = c := by
    simp only [listMin, List.foldl_cons, List.foldl_nil]
    omega
  have hmaxc : listMax [c, c + 1, c + 2] = c + 2 := by
    simp only [listMax, List.foldl_cons, List.foldl_nil]
    omega
  have hmid : usizeSub (c + 2) 1 = some (c + 1) := by
    unfold usizeSub
    rw [if_pos (by omega : 1 ≤ c + 2)]
    exact congrArg some (by omega)
  have e1 : c + 2 - c + 1 = 3 := by omega
  have e2 : r - r + 1 = 1 := by omega
  unfold elim_region_step
  rw [hrs]
  simp only [List.map_cons, List.map_nil]
  simp only [hminr, hmaxr, hminc, hmaxc, e1, e2]
  rw [if_neg (by simp)]
  rw [if_pos (by norm_num)]
  rw [if_neg (by norm_num)]
  rw [hmid]
  rw [rangeIncl_self]
  simp only [List.map_cons, List.map_nil]

theorem pairwise_ne_row (r : Nat) (js : List Nat) (h : js.Pairwise (· ≠ ·)) :
    (js.map fun j => (r, j)).Pairwise (· ≠ ·) :=
  List.Pairwise.map _ (fun _ _ hab heq => hab (congrArg Prod.snd heq)) h

/-- C3 (amended): on a region that is exactly the horizontal strip
(r,c),(r,c+1),(r,c+2) with no stars, rule R3 takes the wider-than-tall
branch and shades the middle cell (r,c+1) plus the single side cells
(r,c-1) and (r,c+3) where those columns exist; every other row is
untouched, in particular the cells directly above and below the strip. -/
theorem C3_strip_shades_middle_and_sides (b : Board) (r c : Nat) (c0 c1 c2 : Cell)
    (hshape : ∀ row ∈ b.cells, row.length = b.width)
    (h0 : b.getCell? r c = some c0) (h1 : b.getCell? r (c + 1) = some c1)
    (h2 : b.getCell? r (c + 2) = some c2)
    (hs0 : c0.state ≠ CellState.Star) (hs1 : c1.state ≠ CellState.Star)
    (hs2 : c2.state ≠ CellState.Star) :
    ∃ b2, elim_region_step b [(r, c), (r, c + 1), (r, c + 2)] = some b2 ∧
      b2.getCell? r (c + 1) = some c1.shade ∧
      (c ≠ 0 → b2.getCell? r (c - 1) = (b.getCell? r (c - 1)).map Cell.shade) ∧
      (c + 3 < b.width → b2.getCell? r (c + 3) = (b.getCell? r (c + 3)).map Cell.shade) ∧
      (∀ i j, i ≠ r → b2.getCell? i j = b.getCell? i j) ∧
      (∀ j, j ≠ c + 1 → j + 1 ≠ c → j ≠ c + 3 → b2.getCell? r j = b.getCell? r j) := by
  have hread : readCells? b [(r, c), (r, c + 1), (r, c + 2)] = some [c0, c1, c2] := by
    simp [readCells?, h0, h1, h2]
  have hrs : regional_stars? b [(r, c), (r, c + 1), (r, c + 2)] = some 0 := by
    unfold regional_stars?
    rw [hread]
    simp [starCount, hs0, hs1, hs2]
  have h2' := h2
  unfold Board.getCell? at h2'
  rcases Option.bind_eq_some.mp h2' with ⟨row, hrow, hc2⟩
  obtain ⟨hlt2, _⟩ := List.get?_eq_some.mp hc2
  have hlen : row.length = b.width := hshape row (List.get?_mem hrow)
  have hw2 : c + 2 < b.width := hlen ▸ hlt2
  have hwm1 : usizeSub b.width 1 = some (b.width - 1) := by
    unfold usizeSub
    rw [if_pos (by omega : 1 ≤ b.width)]
  have hcell : ∀ j, j < b.width → ∃ cell, b.getCell? r j = some cell := by
    intro j hj
    have hj' : j < row.length := by omega
    refine ⟨row.get ⟨j, hj'⟩, ?_⟩
    unfold Board.getCell?
    rw [hrow]
    simp only [Option.some_bind]
    exact List.get?_eq_some.mpr ⟨hj', rfl⟩
  rw [elim_region_step_strip b r c hrs, hwm1]
  simp only []
  by_cases hc0 : c = 0 <;> by_cases hc3 : c + 2 < b.width - 1
  · rw [if_neg (by omega : ¬c ≠ 0), if_pos hc3]
    simp only [List.append_nil, List.singleton_append]
    obtain ⟨b2, hsl, hin, hout, _, _, _⟩ := shadeList_spec [(r, c + 1), (r, c + 3)] b
      (by
        intro p hp
        simp only [List.mem_cons, List.not_mem_nil, or_false] at hp
        rcases hp with rfl | rfl
        all_goals exact hcell _ (by omega))
      (pairwise_ne_row r [c + 1, c + 3] (by simp))
    refine ⟨b2, hsl, ?_, ?_, ?_, ?_, ?_⟩
    · rw [hin (r, c + 1) (by simp), h1]
      rfl
    · intro h
      exact absurd hc0 h
    · intro _
      exact hin (r, c + 3) (by simp)
    · intro i j hi
      refine hout (i, j) ?_
      intro hmem
      simp only [List.mem_cons, List.not_mem_nil, or_false, Prod.ext_iff] at hmem
      omega
    · intro j hj1 hj2 hj3
      refine hout (r, j) ?_
      intro hmem
      simp only [List.mem_cons, List.not_mem_nil, or_false, Prod.ext_iff] at hmem
      omega
  · rw [if_neg (by omega : ¬c ≠ 0), if_neg hc3]
    simp only [List.append_nil]
    obtain ⟨b2, hsl, hin, hout, _, _, _⟩ := shadeList_spec [(r, c + 1)] b
      (by
        intro p hp
        simp only [List.mem_cons, List.not_mem_nil, or_false] at hp
        rcases hp with rfl
        exact hcell _ (by omega))
      (by simp)
    refine ⟨b2, hsl, ?_, ?_, ?_, ?_, ?_⟩
    · rw [hin (r, c + 1) (by simp), h1]
      rfl
    · intro h
      exact absurd hc0 h
    · intro h
      exact absurd h (by omega)
    · intro i j hi
      refine hout (i, j) ?_
      intro hmem
      simp only [List.mem_cons, List.not_mem_nil, or_false, Prod.ext_iff] at hmem
      omega
    · intro j hj1 hj2 hj3
      refine hout (r, j) ?_
      intro hmem
      simp only [List.mem_cons, List.not_mem_nil, or_false, Prod.ext_iff] at hmem
      omega
  · rw [if_pos hc0, if_pos hc3]
    simp only [List.singleton_append, List.cons_append, List.nil_append]
    obtain ⟨b2, hsl, hin, hout, _, _, _⟩ := shadeList_spec [(r, c + 1), (r, c - 1), (r, c + 3)] b
      (by
        intro p hp
        simp only [List.mem_cons, List.not_mem_nil, or_false] at hp
        rcases hp with rfl | rfl | rfl
        all_goals exact hcell _ (by omega))
      (pairwise_ne_row r [c + 1, c - 1, c + 3] (by simp; omega))
    refine ⟨b2, hsl, ?_, ?_, ?_, ?_, ?_⟩
    · rw [hin (r, c + 1) (by simp), h1]
      rfl
    · intro _
      exact hin (r, c - 1) (by simp)
    · intro _
      exact hin (r, c + 3) (by simp)
    · intro i j hi
      refine hout (i, j) ?_
      intro hmem
      simp only [List.mem_cons, List.not_mem_nil, or_false, Prod.ext_iff] at hmem
      omega
    · intro j hj1 hj2 hj3
      refine hout (r, j) ?_
      intro hmem
      simp only [List.mem_cons, List.not_mem_nil, or_false, Prod.ext_iff] at hmem
      omega
  · rw [if_pos hc0, if_neg hc3]
    simp only [List.singleton_append, List.append_nil]
    obtain ⟨b2, hsl, hin, hout, _, _, _⟩ := shadeList_spec [(r, c + 1), (r, c - 1)] b
      (by
        intro p hp
        simp only [List.mem_cons, List.not_mem_nil, or_false] at hp
        rcases hp with rfl | rfl
        all_goals exact hcell _ (by omega))
      (pairwise_ne_row r [c + 1, c - 1] (by simp; omega))
    refine ⟨b2, hsl, ?_, ?_, ?_, ?_, ?_⟩
    · rw [hin (r, c + 1) (by simp), h1]
      rfl
    · intro _
      exact hin (r, c - 1) (by simp)
    · intro h
      exact absurd h (by omega)
    · intro i j hi
      refine hout (i, j) ?_
      intro hmem
      simp only [List.mem_cons, List.not_mem_nil, or_false, Prod.ext_iff] at hmem
      omega
    · intro j hj1 hj2 hj3
      refine hout (r, j) ?_
      intro hmem
      simp only [List.mem_cons, List.not_mem_nil, or_false, Prod.ext_iff] at hmem
      omega

/-- C3 counterexample: on cbStrip the star-free region 0 is the horizontal
strip (1,1),(1,2),(1,3); the claim says R3 shades the three cells directly
above and below the strip, but the cell (0,2) directly above the strip's
middle stays Blank while the strip's own middle cell (1,2) gets shaded. -/
theorem C3_strip_does_not_shade_rows_above_below :
    ((cbStrip.eliminate_middle_of_small_empty_regions).bind fun b2 =>
        (b2.getCell? 0 2).map Cell.state) = some CellState.Blank ∧
    ((cbStrip.eliminate_middle_of_small_empty_regions).bind fun b2 =>
        (b2.getCell? 1 2).map Cell.state) = some CellState.Filled := by
  decide

/-- C3 witness: the amended strip theorem applied to cbStrip at r = 1,
c = 1 (all three strip cells Blank with region tag 0): R3 succeeds, shades
(1,2), (1,0) and (1,4), and leaves every other cell untouched. -/
theorem C3_strip_shades_witness :
    (∀ row ∈ cbStrip.cells, row.length = cbStrip.width) ∧
    cbStrip.getCell? 1 1 = some ⟨0, CellState.Blank⟩ ∧
    ∃ b2, elim_region_step cbStrip [(1, 1), (1, 2), (1, 3)] = some b2 ∧
      b2.getCell? 1 2 = some (Cell.shade ⟨0, CellState.Blank⟩) ∧
      ((1 : Nat) ≠ 0 → b2.getCell? 1 0 = (cbStrip.getCell? 1 0).map Cell.shade) ∧
      ((1 : Nat) + 3 < cbStrip.width →
        b2.getCell? 1 4 = (cbStrip.getCell? 1 4).map Cell.shade) ∧
      (∀ i j, i ≠ 1 → b2.getCell? i j = cbStrip.getCell? i j) ∧
      (∀ j, j ≠ 2 → j + 1 ≠ 1 → j ≠ 4 → b2.getCell? 1 j = cbStrip.getCell? 1 j) :=
  ⟨by decide, by decide,
   C3_strip_shades_middle_and_sides cbStrip 1 1 ⟨0, CellState.Blank⟩ ⟨0, CellState.Blank⟩
     ⟨0, CellState.Blank⟩ (by decide) (by decide) (by decide) (by decide)
     (by decide) (by decide) (by decide)⟩
